import Mathlib

/-!
Verification development for the nbformat parser/compiler pair
(ndoctrinate-nbformat): a shallow embedding of
`src/libs/typescript/nbformat/src/{parser,compiler,utils,types}.ts`
into Lean 4, together with theorems settling the specification claims.

Modelling conventions:
  * JSON values are modelled by the inductive `JsonValue`; numbers are
    `Int` (all numeric literals exercised by the code and claims are
    integers; no claim concerns float behaviour).
  * JavaScript objects are association lists in insertion order (objects
    produced by `JSON.parse` have unique keys, and the code never creates
    duplicates, so first-match lookup agrees with JS semantics).
  * An absent property (`undefined`) is `Option.none` at lookup sites.
    `JSON.stringify` drops `undefined`-valued properties, which the
    compiler model mirrors by omitting such fields.
  * `JSON.parse ∘ JSON.stringify` (the external JSON library) is the
    identity on JSON values, so the compiler is modelled as producing the
    `JsonValue` it would hand to `JSON.stringify`, and "re-parsing the
    emitted string" is parsing that value.
  * The `message` carried by thrown JS `TypeError`s (e.g. calling `.join`
    on a non-array) is approximated by representative strings; no claim
    inspects those particular messages.
-/

/-- A JSON value: the generic documents consumed by `NbformatParser.parse`
and produced by `NbformatCompiler.compile` before serialization. -/
inductive JsonValue where
  | null : JsonValue
  | bool (b : Bool) : JsonValue
  | num (n : Int) : JsonValue
  | str (s : String) : JsonValue
  | arr (xs : List JsonValue) : JsonValue
  | obj (fields : List (String × JsonValue)) : JsonValue
deriving Repr

/-- First-match lookup in an association list (JS object property read). -/
def lookupField : List (String × JsonValue) → String → Option JsonValue
  | [], _ => none
  | (k, v) :: rest, key => if k = key then some v else lookupField rest key

/-- JS property access `v[key]`: defined on objects, `undefined` (none)
on every other value (accessing a property of `null`/`undefined` throws,
which callers in the source guard for where it matters). -/
def getProp : JsonValue → String → Option JsonValue
  | .obj fields, key => lookupField fields key
  | _, _ => none

/-- JS truthiness of a JSON value (`NaN` cannot occur for `Int` numbers). -/
def jsTruthy : JsonValue → Bool
  | .null => false
  | .bool b => b
  | .num n => n != 0
  | .str s => s != ""
  | .arr _ => true
  | .obj _ => true

/-- Coercion of a single array element inside `Array.prototype.join`:
`null`/`undefined` render empty, everything else via the given `String`
rendering of the element. -/
def jsElemString (v : JsonValue) (rendered : String) : String :=
  match v with
  | .null => ""
  | _ => rendered

mutual

/-- JS `String(v)` coercion of a JSON value: arrays join their elements
with commas (null elements render empty), objects render as
`[object Object]`. -/
def jsToString : JsonValue → String
  | .null => "null"
  | .bool b => if b then "true" else "false"
  | .num n => toString n
  | .str s => s
  | .arr xs => jsJoinList "," xs
  | .obj _ => "[object Object]"
termination_by structural v => v

/-- JS `Array.prototype.join(sep)`: elements are coerced with `String`,
except `null`/`undefined` which render as the empty string. -/
def jsJoinList : String → List JsonValue → String
  | _, [] => ""
  | _, [x] => jsElemString x (jsToString x)
  | sep, x :: y :: xs => jsElemString x (jsToString x) ++ sep ++ jsJoinList sep (y :: xs)
termination_by structural _ xs => xs

end

/-- Escape one character for a JSON string literal (as `JSON.stringify`
does: only the required escapes; non-ASCII passes through). -/
def jsonEscapeChar (c : Char) : String :=
  if c = '"' then "\\\""
  else if c = '\\' then "\\\\"
  else if c = '\n' then "\\n"
  else if c = '\r' then "\\r"
  else if c = '\t' then "\\t"
  else if c = (Char.ofNat 8) then "\\b"
  else if c = (Char.ofNat 12) then "\\f"
  else if c.toNat < 32 then
    "\\u00" ++ String.singleton (Nat.digitChar (c.toNat / 16)) ++
      String.singleton (Nat.digitChar (c.toNat % 16))
  else String.singleton c

/-- JSON string literal rendering. -/
def jsonQuote (s : String) : String :=
  "\"" ++ String.join (s.data.map jsonEscapeChar) ++ "\""

/-- Indentation produced by `JSON.stringify(v, null, ind)` at `depth`. -/
def jsonIndent (ind depth : Nat) : String :=
  String.mk (List.replicate (ind * depth) ' ')

mutual

/-- `JSON.stringify(v, null, ind)` at nesting `depth` (pretty form). -/
def jsonStringifyAt (ind depth : Nat) : JsonValue → String
  | .null => "null"
  | .bool b => if b then "true" else "false"
  | .num n => toString n
  | .str s => jsonQuote s
  | .arr [] => "[]"
  | .arr (x :: xs) =>
      "[\n" ++ jsonStringifyItems ind (depth + 1) (x :: xs) ++ "\n" ++
        jsonIndent ind depth ++ "]"
  | .obj [] => "\x7b\x7d"
  | .obj (f :: fs) =>
      "\x7b\n" ++ jsonStringifyFields ind (depth + 1) (f :: fs) ++ "\n" ++
        jsonIndent ind depth ++ "\x7d"

/-- Renders array items, one per line, comma-separated. -/
def jsonStringifyItems (ind depth : Nat) : List JsonValue → String
  | [] => ""
  | [x] => jsonIndent ind depth ++ jsonStringifyAt ind depth x
  | x :: y :: xs =>
      jsonIndent ind depth ++ jsonStringifyAt ind depth x ++ ",\n" ++
        jsonStringifyItems ind depth (y :: xs)

/-- Renders object fields, one per line, comma-separated. -/
def jsonStringifyFields (ind depth : Nat) : List (String × JsonValue) → String
  | [] => ""
  | [(k, v)] => jsonIndent ind depth ++ jsonQuote k ++ ": " ++ jsonStringifyAt ind depth v
  | (k, v) :: f :: fs =>
      jsonIndent ind depth ++ jsonQuote k ++ ": " ++ jsonStringifyAt ind depth v ++
        ",\n" ++ jsonStringifyFields ind depth (f :: fs)

end

/-- `JSON.stringify(v, null, 2)`, the rendering used for the
primary-text fallback of DisplayData/ExecuteResult outputs. -/
def jsonStringify2 (v : JsonValue) : String :=
  jsonStringifyAt 2 0 v

/-!
## Validation utilities (`utils.ts`)
-/

/-- One character of the cell-id alphabet `[a-zA-Z0-9_-]`. -/
def isCellIdChar (c : Char) : Bool :=
  ('a' ≤ c && c ≤ 'z') || ('A' ≤ c && c ≤ 'Z') || ('0' ≤ c && c ≤ '9') ||
    c == '_' || c == '-'

/-- `isValidCellId`: the regular expression
`^[a-zA-Z0-9_-]\x7b1,64\x7d$` — 1 to 64 characters of the id alphabet. -/
def isValidCellId (id : String) : Bool :=
  1 ≤ id.data.length && id.data.length ≤ 64 && id.data.all isCellIdChar

/-- The candidate alphabet used by `generateCellId` (64 characters). -/
def cellIdAlphabet : String :=
  "abcdefghijklmnopqrstuvwxyzABCDEFGHIJKLMNOPQRSTUVWXYZ0123456789-_"

/-- JS `String.prototype.charAt`: the one-character string at the index,
or the empty string when out of range. -/
def jsCharAt (s : String) (i : Nat) : String :=
  match s.data[i]? with
  | some c => String.singleton c
  | none => ""

/-- `generateCellId`: builds an 8-character id by appending
`chars.charAt(Math.floor(Math.random() * chars.length))` eight times.
The random draws are modelled by `choices : Nat → Nat`, where
`choices i` is the value of `Math.floor(Math.random() * 64)` at loop
iteration `i` (hence `choices i < 64` whenever `Math.random() < 1`). -/
def generateCellId (choices : Nat → Nat) : String :=
  (List.range 8).foldl (fun id i => id ++ jsCharAt cellIdAlphabet (choices i)) ""

/-- `isValidNbformatVersion`: `major === 4 && minor >= 0`. -/
def isValidNbformatVersion (major minor : Int) : Bool :=
  major == 4 && decide (0 ≤ minor)

/-!
## Source-text utilities (`utils.ts`)
-/

/-- The two runtime shapes of a cell source (`MultilineString`):
a single string or an array of line strings. -/
inductive MultilineString where
  | str (s : String) : MultilineString
  | arr (xs : List String) : MultilineString

/-- `normalizeSource`: a string is returned as is; an array of lines is
joined with no separator (`source.join("")`). -/
def normalizeSource : MultilineString → String
  | .str s => s
  | .arr xs => String.join xs

/-- Character-level `source.split("\n")`: splits at every newline,
keeping empty segments, and yields one (possibly empty) segment even for
the empty string. -/
def splitOnNewlines : List Char → List (List Char)
  | [] => [[]]
  | c :: rest =>
    if c = '\n' then [] :: splitOnNewlines rest
    else
      match splitOnNewlines rest with
      | [] => [[c]]
      | l :: ls => (c :: l) :: ls

/-- Re-attaches a trailing newline to every segment except the last one
(the `map` step of `splitSource`). -/
def addTrailingNewlines : List (List Char) → List (List Char)
  | [] => []
  | [l] => [l]
  | l :: l2 :: ls => (l ++ ['\n']) :: addTrailingNewlines (l2 :: ls)

/-- `splitSource`: `source.split("\n")` followed by re-adding `"\n"` to
every line but the last. -/
def splitSource (source : String) : List String :=
  (addTrailingNewlines (splitOnNewlines source.data)).map String.mk

/-!
## MIME-bundle utilities (`utils.ts`)
-/

/-- `getPrimaryText`: prefer the `text/plain` entry of the bundle when it
is a string or an array of lines (joined), otherwise fall back to
`JSON.stringify(mimeBundle, null, 2)`. -/
def getPrimaryText (mimeBundle : JsonValue) : String :=
  match getProp mimeBundle "text/plain" with
  | some (.str s) => s
  | some (.arr xs) => jsJoinList "" xs
  | _ => jsonStringify2 mimeBundle

/-- `hasMimeType`: membership of the MIME type among the bundle keys. -/
def hasMimeType (mimeBundle : JsonValue) (mimeType : String) : Bool :=
  match getProp mimeBundle mimeType with
  | some _ => true
  | none => false

/-- `getMimeData`: the representation stored for one MIME type. -/
def getMimeData (mimeBundle : JsonValue) (mimeType : String) : Option JsonValue :=
  getProp mimeBundle mimeType

/-!
## The nbast data model (`types.ts`)

The TS interfaces become structures; the `Cell` and `Output` unions
become closed inductives (the discriminating `type` tags are the
constructor names, so an "internal tag outside the set" is
unrepresentable — mirroring the design note that such a tag is a
programming error). Free-form fields (metadata, MIME bundles, fields the
source passes through with a cast) are kept as raw `JsonValue`s;
`Option` marks values that can be `undefined`.
-/

/-- `StreamOutputData`: which stream the text came from. The source
passes `output.name` through untouched, so it is kept raw. -/
structure StreamOutputData where
  name : Option JsonValue
deriving Repr

/-- `DisplayDataOutputData`: the MIME bundle plus optional metadata. -/
structure DisplayDataOutputData where
  mimeBundle : JsonValue
  metadata : Option JsonValue
deriving Repr

/-- `ExecuteResultOutputData`: execution count, MIME bundle, metadata.
The parser stores `output.execution_count as number` without checking,
so the field is kept raw (`none` = absent). -/
structure ExecuteResultOutputData where
  executionCount : Option JsonValue
  mimeBundle : JsonValue
  metadata : Option JsonValue
deriving Repr

/-- `ErrorOutputData`: exception name and message, kept raw. -/
structure ErrorOutputData where
  ename : Option JsonValue
  evalue : Option JsonValue
deriving Repr

/-- `TracebackLine`: one line of an error traceback. -/
structure TracebackLine where
  value : String
deriving Repr

/-- The `Output` union: stream, display data, execute result, error. -/
inductive Output where
  | streamOutput (value : String) (data : StreamOutputData) : Output
  | displayDataOutput (value : String) (data : DisplayDataOutputData) : Output
  | executeResultOutput (value : String) (data : ExecuteResultOutputData) : Output
  | errorOutput (children : List TracebackLine) (data : ErrorOutputData) : Output
deriving Repr

/-- `CodeCellData`: id, execution count (after `?? null`, so never
absent — `JsonValue.null` plays the role of TS `null`), source,
metadata. -/
structure CodeCellData where
  id : String
  executionCount : JsonValue
  source : String
  metadata : Option JsonValue
deriving Repr

/-- `MarkdownCellData`: id, source (also stored in `value`), metadata. -/
structure MarkdownCellData where
  id : String
  source : String
  metadata : Option JsonValue
deriving Repr

/-- `RawCellData`: id, source, the optional format label, metadata. -/
structure RawCellData where
  id : String
  source : String
  format : Option String
  metadata : Option JsonValue
deriving Repr

/-- The `Cell` union: code, markdown, raw. -/
inductive Cell where
  | codeCell (children : List Output) (data : CodeCellData) : Cell
  | markdownCell (value : String) (data : MarkdownCellData) : Cell
  | rawCell (value : String) (data : RawCellData) : Cell
deriving Repr

/-- `NotebookData`: format version pair and notebook metadata. -/
structure NotebookData where
  nbformat : Int
  nbformat_minor : Int
  metadata : Option JsonValue
deriving Repr

/-- `NotebookRoot`: the root node. The `type` tag is a plain string (TS
declares the literal type `"notebook"`, but the compiler re-checks it at
runtime, so a tampered tag must be representable), and `data` is
optional exactly as in the TS interface. -/
structure NotebookRoot where
  type : String
  children : List Cell
  data : Option NotebookData
deriving Repr

/-!
## Accessors (`utils.ts`)
-/

/-- `getCellSource`: code cells read `data.source`, markdown and raw
cells read the literal `value`. -/
def getCellSource : Cell → String
  | .codeCell _ d => d.source
  | .markdownCell v _ => v
  | .rawCell v _ => v

/-- The `data.source` field of any cell variant (for stating the
value/source coherence invariant). -/
def cellDataSource : Cell → String
  | .codeCell _ d => d.source
  | .markdownCell _ d => d.source
  | .rawCell _ d => d.source

/-- The literal `value` field of the two literal cell variants. -/
def cellValue? : Cell → Option String
  | .codeCell _ _ => none
  | .markdownCell v _ => some v
  | .rawCell v _ => some v

/-- `getCellId`. -/
def getCellId : Cell → String
  | .codeCell _ d => d.id
  | .markdownCell _ d => d.id
  | .rawCell _ d => d.id

/-- `getOutputs`: outputs of a code cell, empty for other variants. -/
def getOutputs : Cell → List Output
  | .codeCell outs _ => outs
  | .markdownCell _ _ => []
  | .rawCell _ _ => []

/-- `hasOutputs`: true only for a code cell with nonempty outputs. -/
def hasOutputs : Cell → Bool
  | .codeCell outs _ => !outs.isEmpty
  | .markdownCell _ _ => false
  | .rawCell _ _ => false

/-!
## Error values (`ndoctrinate-core`)

The error records carry `_tag`, `message` and `cause`; the tag is fixed
by the type and the cause is the underlying JS error object, of which
only the message is observable, so the model keeps the message. -/

/-- `ParseError`. -/
structure ParseError where
  message : String
deriving Repr

/-- `CompileError`. -/
structure CompileError where
  message : String
deriving Repr

/-!
## Parser (`parser.ts`, `NbformatParser`)

`parse` accepts a JSON string or an already-decoded object; the model
takes the decoded `JsonValue` (decoding the string, `JSON.parse`, is the
external JSON library). Every `throw` inside `Effect.try` becomes a
`ParseError` value, so the parser is `Except ParseError`.
-/

/-- Message of the `TypeError` raised when `normalizeSource` receives a
value with no `join` (representative text, see the module comment). -/
def sourceJoinErrorMessage (v : Option JsonValue) : String :=
  match v with
  | none => "Cannot read properties of undefined (reading \x27join\x27)"
  | some _ => "source.join is not a function"

/-- `normalizeSource(cell.source)` applied to the raw JSON field: a
string passes through, an array is joined with `""` (JS `join` coercion
for ill-typed elements), anything else throws a `TypeError`. -/
def normalizeSourceJson : Option JsonValue → Except ParseError String
  | some (.str s) => .ok s
  | some (.arr xs) => .ok (jsJoinList "" xs)
  | v => .error ⟨sourceJoinErrorMessage v⟩

/-- The inline primary-text computation duplicated in
`parseDisplayDataOutput` and `parseExecuteResultOutput`: `text/plain` as
string, joined array, `String(textPlain)` when defined but neither,
otherwise `JSON.stringify(mimeBundle, null, 2)`. -/
def primaryTextInline (mimeBundle : JsonValue) : String :=
  match getProp mimeBundle "text/plain" with
  | some (.str s) => s
  | some (.arr xs) => jsJoinList "" xs
  | some v => jsToString v
  | none => jsonStringify2 mimeBundle

/-- `parseStreamOutput`. -/
def parseStreamOutput (o : JsonValue) : Except ParseError Output := do
  let text ← normalizeSourceJson (getProp o "text")
  .ok (.streamOutput text { name := getProp o "name" })

/-- Message of the `TypeError` raised by `mimeBundle["text/plain"]` when
`output.data` is absent or null. -/
def mimeBundleAccessErrorMessage (v : Option JsonValue) : String :=
  match v with
  | none => "Cannot read properties of undefined (reading \x27text/plain\x27)"
  | some _ => "Cannot read properties of null (reading \x27text/plain\x27)"

/-- `parseDisplayDataOutput`: reads `output.data` (indexing it throws
when it is absent or null), computes the primary text, stores the bundle
and metadata verbatim. -/
def parseDisplayDataOutput (o : JsonValue) : Except ParseError Output :=
  match getProp o "data" with
  | some .null => .error ⟨mimeBundleAccessErrorMessage (some .null)⟩
  | some bundle =>
      .ok (.displayDataOutput (primaryTextInline bundle)
        { mimeBundle := bundle, metadata := getProp o "metadata" })
  | none => .error ⟨mimeBundleAccessErrorMessage none⟩

/-- `parseExecuteResultOutput`: like display data, plus the raw
`execution_count` (cast, not checked). -/
def parseExecuteResultOutput (o : JsonValue) : Except ParseError Output :=
  match getProp o "data" with
  | some .null => .error ⟨mimeBundleAccessErrorMessage (some .null)⟩
  | some bundle =>
      .ok (.executeResultOutput (primaryTextInline bundle)
        { executionCount := getProp o "execution_count",
          mimeBundle := bundle, metadata := getProp o "metadata" })
  | none => .error ⟨mimeBundleAccessErrorMessage none⟩

/-- One traceback line: `typeof line === "string" ? line : String(line)`. -/
def tracebackLineString (line : JsonValue) : String :=
  match line with
  | .str s => s
  | v => jsToString v

/-- `parseErrorOutput`: maps the traceback entries (which throws a
`TypeError` when `traceback` is not an array) and stores `ename` and
`evalue` verbatim. -/
def parseErrorOutput (o : JsonValue) : Except ParseError Output :=
  match getProp o "traceback" with
  | some (.arr lines) =>
      .ok (.errorOutput (lines.map (fun l => ⟨tracebackLineString l⟩))
        { ename := getProp o "ename", evalue := getProp o "evalue" })
  | _ => .error ⟨"output.traceback.map is not a function"⟩

/-- Template-literal rendering of a possibly-absent value
(backtick-string interpolation uses `String`; `undefined` renders as the
word undefined). -/
def templateRender : Option JsonValue → String
  | some v => jsToString v
  | none => "undefined"

/-- The `parseOutput` error message for an unrecognized `output_type`. -/
def unknownOutputTypeMessage (index : Nat) (tag : Option JsonValue) : String :=
  "Unknown output type at index " ++ toString index ++ ": " ++ templateRender tag

/-- `parseOutput`: dispatch on `output_type`. -/
def parseOutput (o : JsonValue) (index : Nat) : Except ParseError Output :=
  match getProp o "output_type" with
  | some (.str "stream") => parseStreamOutput o
  | some (.str "display_data") => parseDisplayDataOutput o
  | some (.str "execute_result") => parseExecuteResultOutput o
  | some (.str "error") => parseErrorOutput o
  | tag => .error ⟨unknownOutputTypeMessage index tag⟩

/-- `(cell.outputs || []).map((output, index) => parseOutput(...))`:
the indexed map, with a thrown error aborting the whole parse. -/
def parseOutputList : List JsonValue → Nat → Except ParseError (List Output)
  | [], _ => .ok []
  | o :: rest, i => do
      let po ← parseOutput o i
      let prest ← parseOutputList rest (i + 1)
      .ok (po :: prest)

/-- The `outputs` field handling of `parseCodeCell`: `cell.outputs || []`
defaults every falsy value to the empty list, then `.map` — which throws
a `TypeError` on a truthy non-array. -/
def parseOutputsField : Option JsonValue → Except ParseError (List Output)
  | none => .ok []
  | some (.arr os) => parseOutputList os 0
  | some v =>
      if jsTruthy v then .error ⟨"cell.outputs.map is not a function"⟩
      else .ok []

/-- `parseCodeCell`. -/
def parseCodeCell (cell : JsonValue) (cellId : String) : Except ParseError Cell := do
  let source ← normalizeSourceJson (getProp cell "source")
  let outs ← parseOutputsField (getProp cell "outputs")
  .ok (.codeCell outs
    { id := cellId,
      executionCount := (getProp cell "execution_count").getD .null,
      source := source,
      metadata := getProp cell "metadata" })

/-- `parseMarkdownCell`: the normalized source becomes both the literal
`value` and `data.source`. -/
def parseMarkdownCell (cell : JsonValue) (cellId : String) : Except ParseError Cell := do
  let source ← normalizeSourceJson (getProp cell "source")
  .ok (.markdownCell source
    { id := cellId, source := source, metadata := getProp cell "metadata" })

/-- The `format` extraction of `parseRawCell`:
`typeof cell.metadata?.format === "string" ? cell.metadata.format :
undefined`. -/
def rawFormat (metadata : Option JsonValue) : Option String :=
  match metadata with
  | some m =>
      match getProp m "format" with
      | some (.str s) => some s
      | _ => none
  | none => none

/-- `parseRawCell`. -/
def parseRawCell (cell : JsonValue) (cellId : String) : Except ParseError Cell := do
  let source ← normalizeSourceJson (getProp cell "source")
  .ok (.rawCell source
    { id := cellId, source := source,
      format := rawFormat (getProp cell "metadata"),
      metadata := getProp cell "metadata" })

/-- The id actually used for a cell: an explicit string id, otherwise
the positional placeholder `cell-<index>`. -/
def cellIdString (rawId : Option JsonValue) (index : Nat) : String :=
  match rawId with
  | some (.str s) => s
  | _ => "cell-" ++ toString index

/-- The guard `rawId && typeof rawId === "string" &&
!isValidCellId(cellIdStr)`: only a truthy (hence nonempty) explicit
string id is validated. -/
def cellIdInvalid (rawId : Option JsonValue) : Bool :=
  match rawId with
  | some (.str s) => s != "" && !(isValidCellId s)
  | _ => false

/-- The `parseCell` error message for an invalid explicit cell id. -/
def invalidCellIdMessage (index : Nat) (cellIdStr : String) : String :=
  "Invalid cell ID at index " ++ toString index ++ ": \"" ++ cellIdStr ++
    "\". Cell IDs must be 1-64 alphanumeric characters, hyphens, or underscores."

/-- The `parseCell` error message for an unrecognized `cell_type`. -/
def unknownCellTypeMessage (index : Nat) (tag : Option JsonValue) : String :=
  "Unknown cell type at index " ++ toString index ++ ": " ++ templateRender tag

/-- The `switch (cell.cell_type)` dispatch of `parseCell`. -/
def dispatchCellType (tag : Option JsonValue) (cell : JsonValue) (cellId : String)
    (index : Nat) : Except ParseError Cell :=
  match tag with
  | some (.str "code") => parseCodeCell cell cellId
  | some (.str "markdown") => parseMarkdownCell cell cellId
  | some (.str "raw") => parseRawCell cell cellId
  | other => .error ⟨unknownCellTypeMessage index other⟩

/-- `parseCell`: resolve the id (placeholder when no string id is
supplied), reject a truthy explicit string id that fails validation,
then dispatch on the cell type. -/
def parseCell (cell : JsonValue) (index : Nat) : Except ParseError Cell :=
  let rawId := getProp cell "id"
  let cellIdStr := cellIdString rawId index
  if cellIdInvalid rawId then
    .error ⟨invalidCellIdMessage index cellIdStr⟩
  else
    dispatchCellType (getProp cell "cell_type") cell cellIdStr index

/-- `notebook.cells.map((cell, index) => this.parseCell(cell, index))`. -/
def parseCellList : List JsonValue → Nat → Except ParseError (List Cell)
  | [], _ => .ok []
  | c :: rest, i => do
      let pc ← parseCell c i
      let prest ← parseCellList rest (i + 1)
      .ok (pc :: prest)

/-- Message for a missing or non-array `cells` field. -/
def invalidCellsMessage : String :=
  "Invalid notebook: missing or invalid \x27cells\x27 array"

/-- Message for a missing or non-numeric `nbformat` field. -/
def invalidNbformatMessage : String :=
  "Invalid notebook: missing or invalid \x27nbformat\x27 version"

/-- The `cells` structure check: `!notebook.cells ||
!Array.isArray(notebook.cells)` — anything but an array (arrays are
always truthy) fails. -/
def requireCells : Option JsonValue → Except ParseError (List JsonValue)
  | some (.arr cs) => .ok cs
  | _ => .error ⟨invalidCellsMessage⟩

/-- The `nbformat` structure check: `typeof notebook.nbformat !==
"number"`. -/
def requireNbformat : Option JsonValue → Except ParseError Int
  | some (.num n) => .ok n
  | _ => .error ⟨invalidNbformatMessage⟩

/-- `notebook.nbformat_minor ?? 0` (the TS type restricts the field to a
number, so only a present number survives the coalescing). -/
def minorDefault : Option JsonValue → Int
  | some (.num m) => m
  | _ => 0

/-- `NbformatParser.parse` on an already-decoded notebook value:
validate `cells` and `nbformat`, convert the cells in order, build the
root node. -/
def parse (notebook : JsonValue) : Except ParseError NotebookRoot := do
  let cs ← requireCells (getProp notebook "cells")
  let nb ← requireNbformat (getProp notebook "nbformat")
  let pcs ← parseCellList cs 0
  .ok { type := "notebook", children := pcs,
        data := some { nbformat := nb,
                       nbformat_minor := minorDefault (getProp notebook "nbformat_minor"),
                       metadata := getProp notebook "metadata" } }

/-!
## Compiler (`compiler.ts`, `NbformatCompiler`)

`compile` validates the tree and builds the `INotebookContent` object;
its serialization to text (`JSON.stringify`, pretty or compact per the
`pretty`/`indent` options) is the external JSON library, so the model
returns the `JsonValue` handed to it. A field whose value would be
`undefined` is omitted, as `JSON.stringify` drops such properties.
-/

/-- `NbformatCompilerOptions` with the defaults the source applies
(`multilineSource ?? false`, `pretty ?? true`, `indent ?? 2`; the last
two only shape the external serialization). -/
structure NbformatCompilerOptions where
  multilineSource : Bool := false
  pretty : Bool := true
  indent : Nat := 2
deriving Repr

/-- An optional object property: present fields keep their value,
`undefined` fields are dropped by `JSON.stringify`. -/
def optionalField (key : String) : Option JsonValue → List (String × JsonValue)
  | some v => [(key, v)]
  | none => []

/-- `x || {}`: the metadata defaulting used throughout the compiler. -/
def jsOrEmptyObj : Option JsonValue → JsonValue
  | some v => if jsTruthy v then v else .obj []
  | none => .obj []

/-- `compileSource`: split into the array-of-lines form only when
`multilineSource` is set and the source contains a newline. -/
def compileSource (opts : NbformatCompilerOptions) (source : String) : JsonValue :=
  if opts.multilineSource && source.contains '\n' then
    .arr ((splitSource source).map .str)
  else .str source

/-- `compileStreamOutput` (stream text is split unconditionally when
`multilineSource` is set). -/
def compileStreamOutput (opts : NbformatCompilerOptions) (value : String)
    (data : StreamOutputData) : JsonValue :=
  .obj ([("output_type", .str "stream")] ++ optionalField "name" data.name ++
    [("text", if opts.multilineSource then .arr ((splitSource value).map .str)
              else .str value)])

/-- `compileDisplayDataOutput`: the full MIME bundle plus
`metadata || {}`. -/
def compileDisplayDataOutput (data : DisplayDataOutputData) : JsonValue :=
  .obj [("output_type", .str "display_data"), ("data", data.mimeBundle),
        ("metadata", jsOrEmptyObj data.metadata)]

/-- `compileExecuteResultOutput`. -/
def compileExecuteResultOutput (data : ExecuteResultOutputData) : JsonValue :=
  .obj ([("output_type", .str "execute_result")] ++
    optionalField "execution_count" data.executionCount ++
    [("data", data.mimeBundle), ("metadata", jsOrEmptyObj data.metadata)])

/-- `compileErrorOutput`: the traceback children flattened back to a
list of strings. -/
def compileErrorOutput (children : List TracebackLine) (data : ErrorOutputData) : JsonValue :=
  .obj ([("output_type", .str "error")] ++ optionalField "ename" data.ename ++
    optionalField "evalue" data.evalue ++
    [("traceback", .arr (children.map (fun t => .str t.value)))])

/-- `compileOutput`: exhaustive dispatch on the output variant (the
`default` branch of the source switch is unreachable for the closed
inductive). -/
def compileOutput (opts : NbformatCompilerOptions) : Output → JsonValue
  | .streamOutput v d => compileStreamOutput opts v d
  | .displayDataOutput _ d => compileDisplayDataOutput d
  | .executeResultOutput _ d => compileExecuteResultOutput d
  | .errorOutput children d => compileErrorOutput children d

/-- `compileCodeCell`. -/
def compileCodeCell (opts : NbformatCompilerOptions) (children : List Output)
    (data : CodeCellData) : JsonValue :=
  .obj [("cell_type", .str "code"), ("id", .str data.id),
        ("execution_count", data.executionCount),
        ("source", compileSource opts data.source),
        ("outputs", .arr (children.map (compileOutput opts))),
        ("metadata", jsOrEmptyObj data.metadata)]

/-- `compileMarkdownCell`. -/
def compileMarkdownCell (opts : NbformatCompilerOptions) (data : MarkdownCellData) : JsonValue :=
  .obj [("cell_type", .str "markdown"), ("id", .str data.id),
        ("source", compileSource opts data.source),
        ("metadata", jsOrEmptyObj data.metadata)]

/-- Replace the binding of a key in place, or append it: JS property
assignment `metadata.format = ...` on the object spread copy. -/
def setField : List (String × JsonValue) → String → JsonValue → List (String × JsonValue)
  | [], key, v => [(key, v)]
  | (k, w) :: rest, key, v =>
      if k = key then (k, v) :: rest else (k, w) :: setField rest key v

/-- The raw-cell metadata rebuild: `{...cell.data.metadata}` (an object
copies its fields, null/undefined spread to an empty object) followed by
`if (cell.data.format) metadata.format = cell.data.format` (a truthy,
hence nonempty, format is written back). -/
def rawCellMetadata (data : RawCellData) : JsonValue :=
  let base : List (String × JsonValue) :=
    match data.metadata with
    | some (.obj fs) => fs
    | _ => []
  match data.format with
  | some f => if f != "" then .obj (setField base "format" (.str f)) else .obj base
  | none => .obj base

/-- `compileRawCell`. -/
def compileRawCell (opts : NbformatCompilerOptions) (data : RawCellData) : JsonValue :=
  .obj [("cell_type", .str "raw"), ("id", .str data.id),
        ("source", compileSource opts data.source),
        ("metadata", rawCellMetadata data)]

/-- `compileCell`: exhaustive dispatch on the cell variant. -/
def compileCell (opts : NbformatCompilerOptions) : Cell → JsonValue
  | .codeCell children d => compileCodeCell opts children d
  | .markdownCell _ d => compileMarkdownCell opts d
  | .rawCell _ d => compileRawCell opts d

/-- Message for a root whose `type` tag is not `notebook`. -/
def rootTypeErrorMessage : String :=
  "Root node must be of type \x27notebook\x27"

/-- Message for a root with no attached data. -/
def missingDataErrorMessage : String :=
  "Notebook root must have data with nbformat version"

/-- Message for an invalid `(nbformat, nbformat_minor)` pair. -/
def invalidVersionMessage (major minor : Int) : String :=
  "Invalid nbformat version: " ++ toString major ++ "." ++ toString minor

/-- `NbformatCompiler.compile`: check the root tag, the presence of
data, and the format version; then build the notebook object
(`nbformat`, `nbformat_minor`, `metadata || {}`, compiled cells). -/
def compile (opts : NbformatCompilerOptions) (tree : NotebookRoot) :
    Except CompileError JsonValue :=
  if tree.type ≠ "notebook" then .error ⟨rootTypeErrorMessage⟩
  else
    match tree.data with
    | none => .error ⟨missingDataErrorMessage⟩
    | some d =>
        if !(isValidNbformatVersion d.nbformat d.nbformat_minor) then
          .error ⟨invalidVersionMessage d.nbformat d.nbformat_minor⟩
        else
          .ok (.obj [("nbformat", .num d.nbformat),
                     ("nbformat_minor", .num d.nbformat_minor),
                     ("metadata", jsOrEmptyObj d.metadata),
                     ("cells", .arr (tree.children.map (compileCell opts)))])

/-!
## Claim C4: missing top-level fields
-/

/-- Whether `needle` begins the list `hay`. -/
def startsWithChars : List Char → List Char → Bool
  | [], _ => true
  | _ :: _, [] => false
  | a :: as, b :: bs => a == b && startsWithChars as bs

/-- Whether `needle` occurs contiguously inside `hay`. -/
def hasSubChars (needle : List Char) : List Char → Bool
  | [] => startsWithChars needle []
  | c :: rest => startsWithChars needle (c :: rest) || hasSubChars needle rest

/-- Substring containment test for error-message inspection. -/
def containsString (needle hay : String) : Bool :=
  hasSubChars needle.data hay.data

/-- Whether a property is present and an array (`Array.isArray`). -/
def isArrayProp (j : JsonValue) (key : String) : Bool :=
  match getProp j key with
  | some (.arr _) => true
  | _ => false

/-- Whether a property is present and a number (`typeof x === "number"`). -/
def isNumProp (j : JsonValue) (key : String) : Bool :=
  match getProp j key with
  | some (.num _) => true
  | _ => false

/-!
## Claim C2: explicit cell-id validation and the positional placeholder
-/

/-- The concrete counterexample input for C2: one markdown cell whose
explicit id is the empty string. -/
def emptyIdNotebook : JsonValue :=
  .obj [("nbformat", .num 4),
        ("cells", .arr [
          .obj [("cell_type", .str "markdown"), ("id", .str ""),
                ("source", .str "hi"), ("metadata", .obj [])]])]

/-- Whether a cell supplies a string identifier. -/
def hasStringId (c : JsonValue) : Bool :=
  match getProp c "id" with
  | some (.str _) => true
  | _ => false

/-- Whether a source-like field has a parsable shape (string or array). -/
def sourceShapeOk (v : Option JsonValue) : Bool :=
  match v with
  | some (.str _) => true
  | some (.arr _) => true
  | _ => false

/-- Whether one raw output parses without error. -/
def parsableOutput (o : JsonValue) : Bool :=
  match getProp o "output_type" with
  | some (.str "stream") => sourceShapeOk (getProp o "text")
  | some (.str "display_data") =>
      (match getProp o "data" with
       | some .null => false
       | some _ => true
       | none => false)
  | some (.str "execute_result") =>
      (match getProp o "data" with
       | some .null => false
       | some _ => true
       | none => false)
  | some (.str "error") =>
      (match getProp o "traceback" with
       | some (.arr _) => true
       | _ => false)
  | _ => false

/-- Whether the `outputs` field of a code cell parses without error. -/
def parsableOutputsField (v : Option JsonValue) : Bool :=
  match v with
  | none => true
  | some (.arr os) => os.all parsableOutput
  | some w => !(jsTruthy w)

/-- Whether a cell body (everything apart from the id) parses without
error. -/
def parsableCellBody (c : JsonValue) : Bool :=
  sourceShapeOk (getProp c "source") &&
  (match getProp c "cell_type" with
   | some (.str "code") => parsableOutputsField (getProp c "outputs")
   | some (.str "markdown") => true
   | some (.str "raw") => true
   | _ => false)

/-!
## Claim C3: primary text of display/execute outputs
-/

/-- The `text/plain` shapes on which the parser's inline primary-text
computation and `getPrimaryText` agree (absent, string, array); a
present non-string non-array entry is handled only by the parser's
extra `String(textPlain)` branch. -/
def primaryTextAgrees (mimeBundle : JsonValue) : Bool :=
  match getProp mimeBundle "text/plain" with
  | none => true
  | some (.str _) => true
  | some (.arr _) => true
  | some _ => false

/-- The concrete execute_result output for the C3 witness. -/
def c3SampleOutput : JsonValue :=
  .obj [("output_type", .str "execute_result"), ("execution_count", .num 1),
        ("data", .obj [("text/plain", .arr [.str "4", .str "2"])]),
        ("metadata", .obj [])]

/-- The parsed form of `c3SampleOutput`. -/
def c3SampleParsed : Output :=
  .executeResultOutput "42"
    ⟨some (.num 1), .obj [("text/plain", .arr [.str "4", .str "2"])], some (.obj [])⟩

/-!
## Well-formed notebooks (for claim C1)
-/

/-- Well-formedness of a raw output for the round trip: recognized
discriminator, parsable payload, and (for display/execute) an object
metadata field so that the `|| \x7b\x7d` defaulting is the identity. -/
def wfOutput (o : JsonValue) : Bool :=
  match getProp o "output_type" with
  | some (.str "stream") => sourceShapeOk (getProp o "text")
  | some (.str "display_data") =>
      (match getProp o "data" with
       | some .null => false
       | some _ => true
       | none => false)
      && (match getProp o "metadata" with
          | some (.obj _) => true
          | _ => false)
  | some (.str "execute_result") =>
      (match getProp o "data" with
       | some .null => false
       | some _ => true
       | none => false)
      && (match getProp o "metadata" with
          | some (.obj _) => true
          | _ => false)
  | some (.str "error") =>
      (match getProp o "traceback" with
       | some (.arr _) => true
       | _ => false)
  | _ => false

/-- Well-formedness of a raw cell: a valid explicit string id, object
metadata, parsable source, a recognized cell type, and (for code cells)
an absent or well-formed outputs array. -/
def wfCell (c : JsonValue) : Bool :=
  (match getProp c "id" with
   | some (.str s) => isValidCellId s
   | _ => false)
  && (match getProp c "metadata" with
      | some (.obj _) => true
      | _ => false)
  && sourceShapeOk (getProp c "source")
  && (match getProp c "cell_type" with
      | some (.str "code") =>
          (match getProp c "outputs" with
           | none => true
           | some (.arr os) => os.all wfOutput
           | _ => false)
      | some (.str "markdown") => true
      | some (.str "raw") => true
      | _ => false)

/-- Well-formedness of a raw notebook: well-formed cells, `nbformat` 4,
an absent or non-negative numeric `nbformat_minor`, and object
metadata. -/
def wfNotebook (j : JsonValue) : Bool :=
  (match getProp j "cells" with
   | some (.arr cs) => cs.all wfCell
   | _ => false)
  && (match getProp j "nbformat" with
      | some (.num n) => n == 4
      | _ => false)
  && (match getProp j "nbformat_minor" with
      | none => true
      | some (.num m) => decide (0 ≤ m)
      | some _ => false)
  && (match getProp j "metadata" with
      | some (.obj _) => true
      | _ => false)

/-- A concrete well-formed notebook exercising all three cell variants
and all four output variants. -/
def c1Sample : JsonValue :=
  .obj [("nbformat", .num 4),
        ("nbformat_minor", .num 5),
        ("metadata", .obj [("kernelspec", .obj [("name", .str "python3")])]),
        ("cells", .arr [
          .obj [("cell_type", .str "markdown"), ("id", .str "md-1"),
                ("source", .arr [.str "# Title\n", .str "text"]),
                ("metadata", .obj [])],
          .obj [("cell_type", .str "code"), ("id", .str "code_1"),
                ("source", .str "print(1)\nprint(2)"),
                ("execution_count", .num 3),
                ("metadata", .obj [("collapsed", .bool false)]),
                ("outputs", .arr [
                  .obj [("output_type", .str "stream"), ("name", .str "stdout"),
                        ("text", .arr [.str "hello\n", .str "world"])],
                  .obj [("output_type", .str "execute_result"),
                        ("execution_count", .num 3),
                        ("data", .obj [("text/plain", .str "42")]),
                        ("metadata", .obj [])],
                  .obj [("output_type", .str "display_data"),
                        ("data", .obj [("image/png", .str "abc")]),
                        ("metadata", .obj [])],
                  .obj [("output_type", .str "error"), ("ename", .str "NameError"),
                        ("evalue", .str "x"),
                        ("traceback", .arr [.str "tb1", .num 7])]])],
          .obj [("cell_type", .str "raw"), ("id", .str "raw-1"),
                ("source", .str "raw text"),
                ("metadata", .obj [("format", .str "text/restructuredtext")])]])]

example : jsonStringify2 (.obj [("text/plain", .num 42)]) =
    "\x7b\n  \"text/plain\": 42\n\x7d" := by rfl

example : jsToString (.arr [.num 1, .null, .num 2]) = "1,,2" := by rfl

example : jsTruthy (.str "") = false := by rfl

example : splitSource "a\nb" = ["a\n", "b"] := by rfl

example : splitSource "" = [""] := by rfl

example : splitSource "x\n" = ["x\n", ""] := by rfl

example : normalizeSource (.arr (splitSource "a\nb\n\nc")) = "a\nb\n\nc" := by rfl

/-!
## Claim C7: version validation boundary
-/

/-- C7: `ValidateFormatVersion(major, minor)` is true exactly when
`major = 4` and `minor ≥ 0`; in particular (4,0) and (4,5) validate true
while (3,0), (5,0) and (4,-1) validate false. -/
theorem C7_format_version_boundary :
    (∀ major minor : Int,
      isValidNbformatVersion major minor = true ↔ (major = 4 ∧ 0 ≤ minor))
    ∧ isValidNbformatVersion 4 0 = true
    ∧ isValidNbformatVersion 4 5 = true
    ∧ isValidNbformatVersion 3 0 = false
    ∧ isValidNbformatVersion 5 0 = false
    ∧ isValidNbformatVersion 4 (-1) = false := by
  refine ⟨fun major minor => ?_, rfl, rfl, rfl, rfl, rfl⟩
  simp [isValidNbformatVersion]

/-!
## Claim C8: generated cell ids
-/

/-- `charAt` on the 64-character alphabet with an in-range index yields
one character of the alphabet. -/
theorem jsCharAt_alphabet (k : Nat) (h : k < 64) :
    ∃ c, jsCharAt cellIdAlphabet k = String.singleton c ∧ c ∈ cellIdAlphabet.data := by
  have hk : k < cellIdAlphabet.data.length := by
    have : cellIdAlphabet.data.length = 64 := by decide
    omega
  refine ⟨cellIdAlphabet.data[k], ?_, List.getElem_mem hk⟩
  simp [jsCharAt, List.getElem?_eq_getElem hk]

/-- Every character of the alphabet satisfies the id-character test. -/
theorem cellIdAlphabet_chars_valid :
    ∀ c ∈ cellIdAlphabet.data, isCellIdChar c = true := by decide

/-- The character data accumulated by the `generateCellId` loop. -/
theorem generateCellId_foldl (choices : Nat → Nat) (l : List Nat) (acc : String) :
    (l.foldl (fun id i => id ++ jsCharAt cellIdAlphabet (choices i)) acc).data
      = acc.data ++ (l.map (fun i => (jsCharAt cellIdAlphabet (choices i)).data)).flatten := by
  induction l generalizing acc with
  | nil => simp
  | cons x xs ih =>
      simp [List.foldl_cons, ih, String.data_append]

/-- Flattening a list of singleton character lists drawn from the
alphabet. -/
theorem flatten_singleton_chars (ls : List (List Char))
    (h : ∀ x ∈ ls, ∃ c, x = [c] ∧ c ∈ cellIdAlphabet.data) :
    ls.flatten.length = ls.length ∧ ∀ c ∈ ls.flatten, c ∈ cellIdAlphabet.data := by
  induction ls with
  | nil => simp
  | cons x xs ih =>
      obtain ⟨c, rfl, hc⟩ := h x (by simp)
      obtain ⟨ihl, ihm⟩ := ih (fun y hy => h y (by simp [hy]))
      refine ⟨by simp [ihl], ?_⟩
      intro d hd
      rcases (by simpa using hd : d = c ∨ ∃ l ∈ xs, d ∈ l) with rfl | ⟨l, hl, hdl⟩
      · exact hc
      · exact ihm d (List.mem_flatten.mpr ⟨l, hl, hdl⟩)

/-- C8: for every sequence of random draws (each the floor of
`Math.random() * 64`, hence below 64), `generateCellId` returns an
8-character string whose characters all come from the
alphanumeric+hyphen+underscore alphabet, and which therefore satisfies
`isValidCellId`. -/
theorem C8_generateCellId_valid (choices : Nat → Nat)
    (h : ∀ i, i < 8 → choices i < 64) :
    (generateCellId choices).data.length = 8
    ∧ (∀ c ∈ (generateCellId choices).data, c ∈ cellIdAlphabet.data)
    ∧ isValidCellId (generateCellId choices) = true := by
  have hdata : (generateCellId choices).data
      = ((List.range 8).map (fun i => (jsCharAt cellIdAlphabet (choices i)).data)).flatten := by
    simpa using generateCellId_foldl choices (List.range 8) ""
  have hsing : ∀ x ∈ (List.range 8).map (fun i => (jsCharAt cellIdAlphabet (choices i)).data),
      ∃ c, x = [c] ∧ c ∈ cellIdAlphabet.data := by
    intro x hx
    obtain ⟨i, hi, rfl⟩ := List.mem_map.mp hx
    obtain ⟨c, hc, hmem⟩ := jsCharAt_alphabet (choices i) (h i (List.mem_range.mp hi))
    exact ⟨c, by simp [hc, String.singleton], hmem⟩
  obtain ⟨hlen, hmem⟩ := flatten_singleton_chars _ hsing
  have hlen8 : (generateCellId choices).data.length = 8 := by
    rw [hdata, hlen]; simp
  have hmem8 : ∀ c ∈ (generateCellId choices).data, c ∈ cellIdAlphabet.data := by
    rw [hdata]; exact hmem
  refine ⟨hlen8, hmem8, ?_⟩
  have hall : (generateCellId choices).data.all isCellIdChar = true :=
    List.all_eq_true.mpr fun c hc => cellIdAlphabet_chars_valid c (hmem8 c hc)
  simp [isValidCellId, hlen8, hall]

/-- Witness for C8 at a concrete draw sequence. -/
theorem C8_generateCellId_valid_witness :
    (∀ i, i < 8 → (fun i => i * 9 % 64) i < 64)
    ∧ ((generateCellId (fun i => i * 9 % 64)).data.length = 8
       ∧ (∀ c ∈ (generateCellId (fun i => i * 9 % 64)).data, c ∈ cellIdAlphabet.data)
       ∧ isValidCellId (generateCellId (fun i => i * 9 % 64)) = true) :=
  ⟨fun i _ => Nat.mod_lt _ (by omega),
   C8_generateCellId_valid (fun i => i * 9 % 64) (fun i _ => Nat.mod_lt _ (by omega))⟩

/-!
## Claim C6: source split/normalize round trip
-/

/-- `split("\n")` always yields at least one segment. -/
theorem splitOnNewlines_ne_nil (cs : List Char) : splitOnNewlines cs ≠ [] := by
  induction cs with
  | nil => simp [splitOnNewlines]
  | cons c rest ih =>
      simp only [splitOnNewlines]
      split
      · simp
      · split
        · simp
        · simp

/-- Re-adding the trailing newlines and flattening recovers the original
characters. -/
theorem flatten_addTrailingNewlines_splitOnNewlines (cs : List Char) :
    (addTrailingNewlines (splitOnNewlines cs)).flatten = cs := by
  induction cs with
  | nil => simp [splitOnNewlines, addTrailingNewlines]
  | cons c rest ih =>
      by_cases hc : c = '\n'
      · subst hc
        rw [show splitOnNewlines ('\n' :: rest) = [] :: splitOnNewlines rest from by
          simp [splitOnNewlines]]
        obtain ⟨l, ls, hS⟩ : ∃ l ls, splitOnNewlines rest = l :: ls := by
          cases h : splitOnNewlines rest with
          | nil => exact absurd h (splitOnNewlines_ne_nil rest)
          | cons l ls => exact ⟨l, ls, rfl⟩
        rw [hS]
        rw [hS] at ih
        simp only [addTrailingNewlines, List.flatten_cons, List.nil_append,
          List.singleton_append]
        rw [← hS] at ih ⊢
        simp [addTrailingNewlines] at ih ⊢
        rw [hS]
        rw [hS] at ih
        simpa using ih
      · obtain ⟨l, ls, hS⟩ : ∃ l ls, splitOnNewlines rest = l :: ls := by
          cases h : splitOnNewlines rest with
          | nil => exact absurd h (splitOnNewlines_ne_nil rest)
          | cons l ls => exact ⟨l, ls, rfl⟩
        have hsplit : splitOnNewlines (c :: rest) = (c :: l) :: ls := by
          simp [splitOnNewlines, hc, hS]
        rw [hsplit]
        rw [hS] at ih
        cases ls with
        | nil =>
            simp only [addTrailingNewlines, List.flatten_cons, List.flatten_nil,
              List.append_nil] at ih ⊢
            simp [ih]
        | cons l2 ls2 =>
            simp only [addTrailingNewlines, List.flatten_cons] at ih ⊢
            rw [← ih]
            simp

/-- Appending strings concatenates their character data (fold form). -/
theorem join_foldl_data (l : List String) (acc : String) :
    (l.foldl (fun a b => a ++ b) acc).data = acc.data ++ (l.map String.data).flatten := by
  induction l generalizing acc with
  | nil => simp
  | cons x xs ih => simp [List.foldl_cons, ih, String.data_append]

/-- Wrapping then unwrapping character data is the identity. -/
theorem map_data_mk (l : List (List Char)) :
    List.map (String.data ∘ String.mk) l = l := by
  induction l with
  | nil => rfl
  | cons x xs ih => simpa [Function.comp] using ih

/-- `String.join` of wrapped character lists is the wrapped flattening. -/
theorem join_map_mk (l : List (List Char)) :
    String.join (l.map String.mk) = String.mk l.flatten := by
  have h := join_foldl_data (l.map String.mk) ""
  apply String.ext
  simpa [String.join, List.map_map, map_data_mk] using h

/-- Every segment produced by `split("\n")` is newline-free. -/
theorem splitOnNewlines_no_newline (cs : List Char) :
    ∀ l ∈ splitOnNewlines cs, '\n' ∉ l := by
  induction cs with
  | nil =>
      intro l hl
      simp only [splitOnNewlines, List.mem_singleton] at hl
      simp [hl]
  | cons c rest ih =>
      intro l hl
      by_cases hc : c = '\n'
      · subst hc
        rw [show splitOnNewlines ('\n' :: rest) = [] :: splitOnNewlines rest from by
          simp [splitOnNewlines]] at hl
        rcases List.mem_cons.mp hl with rfl | hl
        · simp
        · exact ih l hl
      · obtain ⟨l0, ls, hS⟩ : ∃ l0 ls, splitOnNewlines rest = l0 :: ls := by
          cases h : splitOnNewlines rest with
          | nil => exact absurd h (splitOnNewlines_ne_nil rest)
          | cons a b => exact ⟨a, b, rfl⟩
        rw [show splitOnNewlines (c :: rest) = (c :: l0) :: ls from by
          simp [splitOnNewlines, hc, hS]] at hl
        rcases List.mem_cons.mp hl with rfl | hl
        · intro hmem
          rcases List.mem_cons.mp hmem with h1 | h2
          · exact hc h1.symm
          · exact ih l0 (hS ▸ List.mem_cons_self l0 ls) h2
        · exact ih l (hS ▸ List.mem_cons_of_mem l0 hl)

/-- `addTrailingNewlines` appends a newline to every segment but the
last. -/
theorem addTrailingNewlines_dropLast (ls : List (List Char)) :
    ∀ x ∈ (addTrailingNewlines ls).dropLast, ∃ u, x = u ++ ['\n'] := by
  induction ls with
  | nil => simp [addTrailingNewlines]
  | cons l ls ih =>
      intro x hx
      cases ls with
      | nil => simp [addTrailingNewlines] at hx
      | cons l2 ls2 =>
          have hcons : ∃ a b, addTrailingNewlines (l2 :: ls2) = a :: b := by
            cases ls2 with
            | nil => exact ⟨l2, [], rfl⟩
            | cons l3 ls3 => exact ⟨l2 ++ ['\n'], addTrailingNewlines (l3 :: ls3), rfl⟩
          obtain ⟨a, b, hab⟩ := hcons
          simp only [addTrailingNewlines, hab, List.dropLast_cons₂, List.mem_cons] at hx
          rcases hx with rfl | hx
          · exact ⟨l, rfl⟩
          · exact ih x (by simpa [hab] using hx)

/-- `addTrailingNewlines` leaves the final segment unchanged. -/
theorem addTrailingNewlines_getLast? (ls : List (List Char)) :
    (addTrailingNewlines ls).getLast? = ls.getLast? := by
  induction ls with
  | nil => simp [addTrailingNewlines]
  | cons l ls ih =>
      cases ls with
      | nil => simp [addTrailingNewlines]
      | cons l2 ls2 =>
          have hcons : ∃ a b, addTrailingNewlines (l2 :: ls2) = a :: b := by
            cases ls2 with
            | nil => exact ⟨l2, [], rfl⟩
            | cons l3 ls3 => exact ⟨l2 ++ ['\n'], addTrailingNewlines (l3 :: ls3), rfl⟩
          obtain ⟨a, b, hab⟩ := hcons
          calc (addTrailingNewlines (l :: l2 :: ls2)).getLast?
              = ((l ++ ['\n']) :: addTrailingNewlines (l2 :: ls2)).getLast? := rfl
            _ = (addTrailingNewlines (l2 :: ls2)).getLast? := by
                rw [hab]; exact List.getLast?_cons_cons ..
            _ = (l2 :: ls2).getLast? := ih
            _ = (l :: l2 :: ls2).getLast? := (List.getLast?_cons_cons ..).symm

/-- C6: joining the lines produced by `splitSource` recovers the input
(for any string, in particular those free of carriage returns), so a
`splitSource`-produced list survives a normalize/split round trip; each
non-final line keeps a trailing newline, and the final line has none. -/
theorem C6_split_normalize_roundtrip :
    (∀ s : String, '\r' ∉ s.data → normalizeSource (.arr (splitSource s)) = s)
    ∧ (∀ s : String, splitSource (normalizeSource (.arr (splitSource s))) = splitSource s)
    ∧ (∀ s t : String, t ∈ (splitSource s).dropLast → ∃ u, t.data = u ++ ['\n'])
    ∧ (∀ s t : String, (splitSource s).getLast? = some t → '\n' ∉ t.data) := by
  have key : ∀ s : String, normalizeSource (.arr (splitSource s)) = s := by
    intro s
    show String.join ((addTrailingNewlines (splitOnNewlines s.data)).map String.mk) = s
    rw [join_map_mk, flatten_addTrailingNewlines_splitOnNewlines]
  have dropLast_map : ∀ (l : List (List Char)),
      (l.map String.mk).dropLast = l.dropLast.map String.mk := by
    intro l
    rw [List.dropLast_eq_take, List.dropLast_eq_take]
    simp [List.map_take]
  have getLast?_map : ∀ (l : List (List Char)),
      (l.map String.mk).getLast? = l.getLast?.map String.mk := by
    intro l
    induction l with
    | nil => rfl
    | cons x xs ih =>
        cases xs with
        | nil => rfl
        | cons y ys =>
            calc ((x :: y :: ys).map String.mk).getLast?
                = ((y :: ys).map String.mk).getLast? := List.getLast?_cons_cons ..
              _ = ((y :: ys).getLast?).map String.mk := ih
              _ = ((x :: y :: ys).getLast?).map String.mk := by
                  rw [List.getLast?_cons_cons]
  have getLast?_mem : ∀ (l : List (List Char)) (x : List Char),
      l.getLast? = some x → x ∈ l := by
    intro l x h
    obtain ⟨hne, rfl⟩ := List.mem_getLast?_eq_getLast (l := l) (x := x) h
    exact List.getLast_mem hne
  refine ⟨fun s _ => key s, fun s => by rw [key], ?_, ?_⟩
  · intro s t ht
    simp only [splitSource, dropLast_map, List.mem_map] at ht
    obtain ⟨x, hx, rfl⟩ := ht
    obtain ⟨u, rfl⟩ := addTrailingNewlines_dropLast _ x hx
    exact ⟨u, rfl⟩
  · intro s t ht
    rw [splitSource, getLast?_map, addTrailingNewlines_getLast?] at ht
    obtain ⟨x, hx, hmk⟩ := Option.map_eq_some'.mp ht
    have hxmem : x ∈ splitOnNewlines s.data := getLast?_mem _ _ hx
    have := splitOnNewlines_no_newline s.data x hxmem
    simpa [← hmk] using this

/-- Witness for C6 at the concrete string `"a\nb\n"`. -/
theorem C6_split_normalize_roundtrip_witness :
    ('\r' ∉ "a\nb\n".data ∧ normalizeSource (.arr (splitSource "a\nb\n")) = "a\nb\n")
    ∧ ("a\n" ∈ (splitSource "a\nb\n").dropLast → ∃ u, "a\n".data = u ++ ['\n'])
    ∧ ((splitSource "a\nb\n").getLast? = some "" → '\n' ∉ "".data) :=
  ⟨⟨by decide, C6_split_normalize_roundtrip.1 "a\nb\n" (by decide)⟩,
   fun h => C6_split_normalize_roundtrip.2.2.1 "a\nb\n" "a\n" h,
   fun h => C6_split_normalize_roundtrip.2.2.2 "a\nb\n" "" h⟩

example : containsString "cells" invalidCellsMessage = true := by decide

example : containsString "nbformat" invalidNbformatMessage = true := by decide

/-- `Except.bind` on an error short-circuits. -/
theorem ebindError {ε α β : Type} (e : ε) (f : α → Except ε β) :
    (Except.error e : Except ε α) >>= f = .error e := rfl

/-- `Except.bind` on a success applies the continuation. -/
theorem ebindOk {ε α β : Type} (a : α) (f : α → Except ε β) :
    (Except.ok a : Except ε α) >>= f = f a := rfl

/-- C4 counterexample: on the empty object — whose `nbformat` field is
missing — parse fails with the `cells` message, which does not contain
"nbformat"; so the claim's second clause is false for inputs that also
lack a proper `cells` array. -/
theorem C4_counterexample :
    getProp (JsonValue.obj []) "nbformat" = none
    ∧ parse (.obj []) = .error ⟨invalidCellsMessage⟩
    ∧ containsString "nbformat" invalidCellsMessage = false :=
  ⟨rfl, rfl, by decide⟩

/-- C4 (amended): a missing or non-array `cells` field always fails with
a message containing "cells"; a missing or non-numeric `nbformat` field
fails with a message containing "nbformat" provided `cells` is present
and an array (otherwise the `cells` check fires first); no document is
returned in either case. -/
theorem C4_missing_required_fields :
    (∀ j : JsonValue, isArrayProp j "cells" = false →
       ∃ e, parse j = .error e ∧ containsString "cells" e.message = true)
    ∧ (∀ j : JsonValue, isArrayProp j "cells" = true → isNumProp j "nbformat" = false →
       ∃ e, parse j = .error e ∧ containsString "nbformat" e.message = true) := by
  constructor
  · intro j h
    refine ⟨⟨invalidCellsMessage⟩, ?_, by decide⟩
    have hc : requireCells (getProp j "cells") = .error ⟨invalidCellsMessage⟩ := by
      cases hg : getProp j "cells" with
      | none => rfl
      | some v =>
          cases v with
          | arr cs => simp [isArrayProp, hg] at h
          | null => rfl
          | bool b => rfl
          | num n => rfl
          | str s => rfl
          | obj fs => rfl
    simp [parse, hc, ebindError]
  · intro j h hn
    obtain ⟨cs, hg⟩ : ∃ cs, getProp j "cells" = some (.arr cs) := by
      unfold isArrayProp at h
      cases hg : getProp j "cells" with
      | none => rw [hg] at h; simp at h
      | some v =>
          cases v with
          | arr cs => exact ⟨cs, rfl⟩
          | null => rw [hg] at h; simp at h
          | bool b => rw [hg] at h; simp at h
          | num n => rw [hg] at h; simp at h
          | str s => rw [hg] at h; simp at h
          | obj fs => rw [hg] at h; simp at h
    refine ⟨⟨invalidNbformatMessage⟩, ?_, by decide⟩
    have hnb : requireNbformat (getProp j "nbformat") = .error ⟨invalidNbformatMessage⟩ := by
      cases hg2 : getProp j "nbformat" with
      | none => rfl
      | some v =>
          cases v with
          | num n => simp [isNumProp, hg2] at hn
          | null => rfl
          | bool b => rfl
          | arr xs => rfl
          | str s => rfl
          | obj fs => rfl
    simp [parse, hg, requireCells, hnb, ebindOk, ebindError]

/-- Witness for C4 at two concrete malformed inputs. -/
theorem C4_missing_required_fields_witness :
    (isArrayProp (.obj [("cells", .num 0)]) "cells" = false
     ∧ ∃ e, parse (.obj [("cells", .num 0)]) = .error e
        ∧ containsString "cells" e.message = true)
    ∧ (isArrayProp (.obj [("cells", .arr [])]) "cells" = true
       ∧ isNumProp (.obj [("cells", .arr [])]) "nbformat" = false
       ∧ ∃ e, parse (.obj [("cells", .arr [])]) = .error e
          ∧ containsString "nbformat" e.message = true) :=
  ⟨⟨rfl, C4_missing_required_fields.1 (.obj [("cells", .num 0)]) rfl⟩,
   ⟨rfl, rfl, C4_missing_required_fields.2 (.obj [("cells", .arr [])]) rfl rfl⟩⟩

/-!
## Claim C5: compile preconditions
-/

/-- C5: whatever the options, compile returns a `CompileError` — and
hence no JSON output — whenever the root tag is not "notebook", or no
data is attached, or the attached version pair fails
`ValidateFormatVersion`. -/
theorem C5_compile_preconditions (opts : NbformatCompilerOptions) (tree : NotebookRoot)
    (h : tree.type ≠ "notebook" ∨ tree.data = none ∨
         ∃ d, tree.data = some d ∧ isValidNbformatVersion d.nbformat d.nbformat_minor = false) :
    ∃ e, compile opts tree = .error e := by
  rcases h with h | h | ⟨d, hd, hv⟩
  · exact ⟨⟨rootTypeErrorMessage⟩, by simp [compile, h]⟩
  · by_cases ht : tree.type = "notebook"
    · exact ⟨⟨missingDataErrorMessage⟩, by simp [compile, ht, h]⟩
    · exact ⟨⟨rootTypeErrorMessage⟩, by simp [compile, ht]⟩
  · by_cases ht : tree.type = "notebook"
    · exact ⟨⟨invalidVersionMessage d.nbformat d.nbformat_minor⟩,
        by simp [compile, ht, hd, hv]⟩
    · exact ⟨⟨rootTypeErrorMessage⟩, by simp [compile, ht]⟩

/-- Witness for C5 at three concrete malformed trees. -/
theorem C5_compile_preconditions_witness :
    (∃ e, compile {} ⟨"document", [], some ⟨4, 0, none⟩⟩ = .error e)
    ∧ (∃ e, compile {} ⟨"notebook", [], none⟩ = .error e)
    ∧ (∃ e, compile {} ⟨"notebook", [], some ⟨3, 0, none⟩⟩ = .error e) :=
  ⟨C5_compile_preconditions {} _ (Or.inl (by decide)),
   C5_compile_preconditions {} _ (Or.inr (Or.inl rfl)),
   C5_compile_preconditions {} _ (Or.inr (Or.inr ⟨_, rfl, by decide⟩))⟩

/-!
## Claim C10: default of the minor version
-/

/-- C10: with `cells` and `nbformat` well-formed and all cells parsing,
an absent `nbformat_minor` does not fail: the document gets minor
version 0; an absent `nbformat`, by contrast, is a `ParseError`. -/
theorem C10_minor_defaults_to_zero (j : JsonValue) :
    (∀ cs n pcs, getProp j "cells" = some (.arr cs) →
      getProp j "nbformat" = some (.num n) →
      getProp j "nbformat_minor" = none →
      parseCellList cs 0 = .ok pcs →
      parse j = .ok ⟨"notebook", pcs, some ⟨n, 0, getProp j "metadata"⟩⟩)
    ∧ (∀ cs, getProp j "cells" = some (.arr cs) →
        getProp j "nbformat" = none →
        parse j = .error ⟨invalidNbformatMessage⟩) := by
  constructor
  · intro cs n pcs hg hn hm hp
    simp [parse, hg, hn, hm, hp, requireCells, requireNbformat, minorDefault,
      ebindOk, ebindError]
  · intro cs hg hn
    simp [parse, hg, hn, requireCells, requireNbformat, ebindOk, ebindError]

/-- Witness for C10 at two concrete inputs. -/
theorem C10_minor_defaults_to_zero_witness :
    parse (.obj [("cells", .arr []), ("nbformat", .num 4)])
      = .ok ⟨"notebook", [], some ⟨4, 0, none⟩⟩
    ∧ parse (.obj [("cells", .arr [])]) = .error ⟨invalidNbformatMessage⟩ :=
  ⟨(C10_minor_defaults_to_zero _).1 [] 4 [] rfl rfl rfl rfl,
   (C10_minor_defaults_to_zero _).2 [] rfl rfl⟩

/-- C2 counterexample: the empty string is an explicit string identifier
that fails `ValidateCellId`, yet parse succeeds (the guard
`rawId && ...` skips falsy ids), keeping `""` as the cell id. -/
theorem C2_counterexample :
    isValidCellId "" = false
    ∧ getProp (.obj [("cell_type", .str "markdown"), ("id", .str ""),
        ("source", .str "hi"), ("metadata", .obj [])]) "id" = some (.str "")
    ∧ parse emptyIdNotebook
        = .ok ⟨"notebook",
               [.markdownCell "hi" ⟨"", "hi", some (.obj [])⟩],
               some ⟨4, 0, none⟩⟩ :=
  ⟨by decide, rfl, rfl⟩

/-- A parsable output shape indeed parses. -/
theorem parseOutput_ok_of_parsable (o : JsonValue) (i : Nat)
    (h : parsableOutput o = true) : ∃ po, parseOutput o i = .ok po := by
  unfold parsableOutput at h
  cases hg : getProp o "output_type" with
  | none => rw [hg] at h; simp at h
  | some v =>
      rw [hg] at h
      cases v with
      | str s =>
          by_cases h1 : s = "stream"
          · subst h1
            simp only at h
            unfold sourceShapeOk at h
            cases hs : getProp o "text" with
            | none => rw [hs] at h; simp at h
            | some w =>
                rw [hs] at h
                cases w with
                | str t =>
                    exact ⟨_, by simp only [parseOutput, hg, parseStreamOutput,
                      normalizeSourceJson, hs, ebindOk]; rfl⟩
                | arr xs =>
                    exact ⟨_, by simp only [parseOutput, hg, parseStreamOutput,
                      normalizeSourceJson, hs, ebindOk]; rfl⟩
                | null => simp at h
                | bool b => simp at h
                | num n => simp at h
                | obj fs => simp at h
          · by_cases h2 : s = "display_data"
            · subst h2
              simp only at h
              cases hd : getProp o "data" with
              | none => rw [hd] at h; simp at h
              | some w =>
                  rw [hd] at h
                  cases w with
                  | null => simp at h
                  | bool b =>
                      exact ⟨_, by simp only [parseOutput, hg, parseDisplayDataOutput, hd]; rfl⟩
                  | num n =>
                      exact ⟨_, by simp only [parseOutput, hg, parseDisplayDataOutput, hd]; rfl⟩
                  | str t =>
                      exact ⟨_, by simp only [parseOutput, hg, parseDisplayDataOutput, hd]; rfl⟩
                  | arr xs =>
                      exact ⟨_, by simp only [parseOutput, hg, parseDisplayDataOutput, hd]; rfl⟩
                  | obj fs =>
                      exact ⟨_, by simp only [parseOutput, hg, parseDisplayDataOutput, hd]; rfl⟩
            · by_cases h3 : s = "execute_result"
              · subst h3
                simp only at h
                cases hd : getProp o "data" with
                | none => rw [hd] at h; simp at h
                | some w =>
                    rw [hd] at h
                    cases w with
                    | null => simp at h
                    | bool b =>
                        exact ⟨_, by simp only [parseOutput, hg, parseExecuteResultOutput, hd]; rfl⟩
                    | num n =>
                        exact ⟨_, by simp only [parseOutput, hg, parseExecuteResultOutput, hd]; rfl⟩
                    | str t =>
                        exact ⟨_, by simp only [parseOutput, hg, parseExecuteResultOutput, hd]; rfl⟩
                    | arr xs =>
                        exact ⟨_, by simp only [parseOutput, hg, parseExecuteResultOutput, hd]; rfl⟩
                    | obj fs =>
                        exact ⟨_, by simp only [parseOutput, hg, parseExecuteResultOutput, hd]; rfl⟩
              · by_cases h4 : s = "error"
                · subst h4
                  simp only at h
                  cases ht : getProp o "traceback" with
                  | none => rw [ht] at h; simp at h
                  | some w =>
                      rw [ht] at h
                      cases w with
                      | arr lines =>
                          exact ⟨_, by simp only [parseOutput, hg, parseErrorOutput, ht]; rfl⟩
                      | null => simp at h
                      | bool b => simp at h
                      | num n => simp at h
                      | str t => simp at h
                      | obj fs => simp at h
                · simp [h1, h2, h3, h4] at h
      | null => simp at h
      | bool b => simp at h
      | num n => simp at h
      | arr xs => simp at h
      | obj fs => simp at h

/-- A list of parsable outputs parses at any starting index. -/
theorem parseOutputList_ok_of_parsable (os : List JsonValue)
    (h : os.all parsableOutput = true) :
    ∀ i, ∃ pos, parseOutputList os i = .ok pos := by
  induction os with
  | nil => exact fun i => ⟨[], rfl⟩
  | cons o rest ih =>
      intro i
      simp only [List.all_cons, Bool.and_eq_true] at h
      obtain ⟨po, hpo⟩ := parseOutput_ok_of_parsable o i h.1
      obtain ⟨prest, hprest⟩ := ih h.2 (i + 1)
      exact ⟨po :: prest, by simp [parseOutputList, hpo, hprest, ebindOk]⟩

/-- A parsable `outputs` field parses. -/
theorem parseOutputsField_ok_of_parsable (v : Option JsonValue)
    (h : parsableOutputsField v = true) :
    ∃ outs, parseOutputsField v = .ok outs := by
  unfold parsableOutputsField at h
  cases v with
  | none => exact ⟨[], rfl⟩
  | some w =>
      cases w with
      | arr os =>
          obtain ⟨pos, hpos⟩ := parseOutputList_ok_of_parsable os (by simpa using h) 0
          exact ⟨pos, by simpa [parseOutputsField] using hpos⟩
      | null => exact ⟨[], rfl⟩
      | bool b =>
          have hb : jsTruthy (.bool b) = false := by simpa using h
          exact ⟨[], by simp [parseOutputsField, hb]⟩
      | num n =>
          have hb : jsTruthy (.num n) = false := by simpa using h
          exact ⟨[], by simp [parseOutputsField, hb]⟩
      | str s =>
          have hb : jsTruthy (.str s) = false := by simpa using h
          exact ⟨[], by simp [parseOutputsField, hb]⟩
      | obj fs =>
          have hb : jsTruthy (.obj fs) = false := by simpa using h
          exact ⟨[], by simp [parseOutputsField, hb]⟩

/-- The source field of a parsable cell normalizes. -/
theorem normalizeSourceJson_ok_of_shape (v : Option JsonValue)
    (h : sourceShapeOk v = true) : ∃ s, normalizeSourceJson v = .ok s := by
  unfold sourceShapeOk at h
  cases v with
  | none => simp at h
  | some w =>
      cases w with
      | str t => exact ⟨t, rfl⟩
      | arr xs => exact ⟨_, rfl⟩
      | null => simp at h
      | bool b => simp at h
      | num n => simp at h
      | obj fs => simp at h

/-- A cell that supplies no string id and has a parsable body parses,
and is assigned the positional placeholder id. -/
theorem parseCell_placeholder (c : JsonValue) (i : Nat)
    (hid : hasStringId c = false) (hbody : parsableCellBody c = true) :
    ∃ pc, parseCell c i = .ok pc ∧ getCellId pc = "cell-" ++ toString i := by
  have hraw : cellIdString (getProp c "id") i = "cell-" ++ toString i := by
    unfold hasStringId at hid
    unfold cellIdString
    cases hg : getProp c "id" with
    | none => rfl
    | some v =>
        rw [hg] at hid
        cases v with
        | str t => simp at hid
        | null => rfl
        | bool b => rfl
        | num n => rfl
        | arr xs => rfl
        | obj fs => rfl
  have hinv : cellIdInvalid (getProp c "id") = false := by
    unfold hasStringId at hid
    unfold cellIdInvalid
    cases hg : getProp c "id" with
    | none => rfl
    | some v =>
        rw [hg] at hid
        cases v with
        | str t => simp at hid
        | null => rfl
        | bool b => rfl
        | num n => rfl
        | arr xs => rfl
        | obj fs => rfl
  unfold parsableCellBody at hbody
  rw [Bool.and_eq_true] at hbody
  obtain ⟨hsrc, hct⟩ := hbody
  obtain ⟨s, hs⟩ := normalizeSourceJson_ok_of_shape _ hsrc
  cases hg : getProp c "cell_type" with
  | none => rw [hg] at hct; simp at hct
  | some v =>
      rw [hg] at hct
      cases v with
      | str t =>
          by_cases t1 : t = "code"
          · subst t1
            simp only at hct
            obtain ⟨outs, houts⟩ := parseOutputsField_ok_of_parsable _ hct
            refine ⟨.codeCell outs ⟨"cell-" ++ toString i,
              (getProp c "execution_count").getD .null, s, getProp c "metadata"⟩, ?_, rfl⟩
            simp [parseCell, hinv, hraw, hg, dispatchCellType, parseCodeCell,
              hs, houts, ebindOk]
          · by_cases t2 : t = "markdown"
            · subst t2
              refine ⟨.markdownCell s ⟨"cell-" ++ toString i, s, getProp c "metadata"⟩,
                ?_, rfl⟩
              simp [parseCell, hinv, hraw, hg, dispatchCellType, parseMarkdownCell,
                hs, ebindOk]
            · by_cases t3 : t = "raw"
              · subst t3
                refine ⟨.rawCell s ⟨"cell-" ++ toString i, s,
                  rawFormat (getProp c "metadata"), getProp c "metadata"⟩, ?_, rfl⟩
                simp [parseCell, hinv, hraw, hg, dispatchCellType, parseRawCell,
                  hs, ebindOk]
              · simp [t1, t2, t3] at hct
      | null => simp at hct
      | bool b => simp at hct
      | num n => simp at hct
      | arr xs => simp at hct
      | obj fs => simp at hct

/-- A failing cell aborts `parseCellList` with its error, provided every
earlier cell parses. -/
theorem parseCellList_error_at (cs : List JsonValue) (k i : Nat) (c : JsonValue)
    (e : ParseError)
    (hc : cs[i]? = some c)
    (herr : parseCell c (k + i) = .error e)
    (hok : ∀ m, m < i → ∀ cm, cs[m]? = some cm → ∃ pc, parseCell cm (k + m) = .ok pc) :
    parseCellList cs k = .error e := by
  induction cs generalizing k i with
  | nil => simp at hc
  | cons c0 rest ih =>
      cases i with
      | zero =>
          rw [List.getElem?_cons_zero] at hc
          obtain rfl : c0 = c := Option.some.inj hc
          simp [parseCellList, show parseCell c0 k = .error e from by simpa using herr,
            ebindError]
      | succ i2 =>
          obtain ⟨pc0, hpc0⟩ := hok 0 (Nat.succ_pos i2) c0 (by simp)
          have hrec : parseCellList rest (k + 1) = .error e := by
            apply ih (k + 1) i2 (by simpa using hc)
            · rw [show k + 1 + i2 = k + (i2 + 1) from by omega]; exact herr
            · intro m hm cm hcm
              have := hok (m + 1) (by omega) cm (by simpa using hcm)
              rwa [show k + (m + 1) = k + 1 + m from by omega] at this
          calc parseCellList (c0 :: rest) k
              = (parseCell c0 k) >>= (fun pc =>
                  (parseCellList rest (k + 1)) >>= fun prest => Except.ok (pc :: prest)) := rfl
            _ = .error e := by
                simp only [show parseCell c0 k = .ok pc0 from by simpa using hpc0,
                  ebindOk, hrec, ebindError]

/-- C2 (amended): a *nonempty* explicit string identifier failing
`ValidateCellId` at cell index `i` makes parse fail with the message
naming the index and the identifier (an empty-string identifier slips
through the truthiness guard, see the counterexample); and a cell that
supplies no string identifier parses with the placeholder id
`cell-<i>` whenever its body is otherwise parsable. -/
theorem C2_cell_id_validation :
    (∀ (j : JsonValue) (cs : List JsonValue) (i : Nat) (c : JsonValue) (s : String),
        getProp j "cells" = some (.arr cs) →
        isNumProp j "nbformat" = true →
        cs[i]? = some c →
        getProp c "id" = some (.str s) →
        s ≠ "" →
        isValidCellId s = false →
        (∀ m, m < i → ∀ cm, cs[m]? = some cm → ∃ pc, parseCell cm m = .ok pc) →
        parse j = .error ⟨invalidCellIdMessage i s⟩)
    ∧ (∀ (c : JsonValue) (i : Nat), hasStringId c = false → parsableCellBody c = true →
        ∃ pc, parseCell c i = .ok pc ∧ getCellId pc = "cell-" ++ toString i) := by
  refine ⟨?_, parseCell_placeholder⟩
  intro j cs i c s hcells hnum hci hid hne hval hok
  obtain ⟨n, hnb⟩ : ∃ n, getProp j "nbformat" = some (.num n) := by
    unfold isNumProp at hnum
    cases hg : getProp j "nbformat" with
    | none => rw [hg] at hnum; simp at hnum
    | some v =>
        rw [hg] at hnum
        cases v with
        | num n => exact ⟨n, rfl⟩
        | null => simp at hnum
        | bool b => simp at hnum
        | str t => simp at hnum
        | arr xs => simp at hnum
        | obj fs => simp at hnum
  have hcerr : parseCell c i = .error ⟨invalidCellIdMessage i s⟩ := by
    have hguard : cellIdInvalid (some (.str s)) = true := by
      simp [cellIdInvalid, hne, hval]
    have hcid : cellIdString (some (.str s)) i = s := rfl
    simp [parseCell, hid, hguard, hcid]
  have hlist : parseCellList cs 0 = .error ⟨invalidCellIdMessage i s⟩ := by
    apply parseCellList_error_at cs 0 i c _ hci (by simpa using hcerr)
    intro m hm cm hcm
    simpa using hok m hm cm hcm
  simp [parse, hcells, requireCells, hnb, requireNbformat, hlist, ebindOk, ebindError]

/-- Witness for C2 at two concrete cells (an invalid nonempty id, and a
cell with no id at all). -/
theorem C2_cell_id_validation_witness :
    parse (.obj [("cells", .arr [.obj [("cell_type", .str "markdown"),
            ("id", .str "bad id"), ("source", .str "x")]]), ("nbformat", .num 4)])
        = .error ⟨invalidCellIdMessage 0 "bad id"⟩
    ∧ ∃ pc, parseCell (.obj [("cell_type", .str "markdown"), ("source", .str "x")]) 5
          = .ok pc ∧ getCellId pc = "cell-" ++ toString 5 :=
  ⟨C2_cell_id_validation.1 _ _ 0 _ "bad id" rfl rfl rfl rfl (by decide) (by decide)
      (fun m hm => absurd hm (Nat.not_lt_zero m)),
   C2_cell_id_validation.2 _ 5 rfl rfl⟩

/-- On agreeing shapes the two computations coincide. -/
theorem primaryTextInline_eq_getPrimaryText (mimeBundle : JsonValue)
    (h : primaryTextAgrees mimeBundle = true) :
    primaryTextInline mimeBundle = getPrimaryText mimeBundle := by
  unfold primaryTextAgrees at h
  unfold primaryTextInline getPrimaryText
  cases hg : getProp mimeBundle "text/plain" with
  | none => rfl
  | some v =>
      rw [hg] at h
      cases v with
      | str s => rfl
      | arr xs => rfl
      | null => simp at h
      | bool b => simp at h
      | num n => simp at h
      | obj fs => simp at h

/-- Inversion of `parseOutput`: the four shapes a parsed output can
take, each with its defining fields. -/
theorem parseOutput_ok_cases (o : JsonValue) (i : Nat) (po : Output)
    (h : parseOutput o i = .ok po) :
    (∃ text, po = .streamOutput text ⟨getProp o "name"⟩)
    ∨ (∃ bundle, getProp o "data" = some bundle ∧
        po = .displayDataOutput (primaryTextInline bundle)
          ⟨bundle, getProp o "metadata"⟩)
    ∨ (∃ bundle, getProp o "data" = some bundle ∧
        po = .executeResultOutput (primaryTextInline bundle)
          ⟨getProp o "execution_count", bundle, getProp o "metadata"⟩)
    ∨ (∃ lines, getProp o "traceback" = some (.arr lines) ∧
        po = .errorOutput (lines.map fun l => ⟨tracebackLineString l⟩)
          ⟨getProp o "ename", getProp o "evalue"⟩) := by
  unfold parseOutput at h
  cases hg : getProp o "output_type" with
  | none => rw [hg] at h; simp at h
  | some v =>
      rw [hg] at h
      cases v with
      | str s =>
          by_cases h1 : s = "stream"
          · subst h1
            simp only at h
            unfold parseStreamOutput at h
            cases hns : normalizeSourceJson (getProp o "text") with
            | error e => rw [hns] at h; simp [ebindError] at h
            | ok text =>
                rw [hns] at h
                simp only [ebindOk] at h
                exact Or.inl ⟨text, (Except.ok.inj h).symm⟩
          · by_cases h2 : s = "display_data"
            · subst h2
              simp only at h
              unfold parseDisplayDataOutput at h
              cases hd : getProp o "data" with
              | none => rw [hd] at h; simp at h
              | some bundle =>
                  rw [hd] at h
                  cases bundle with
                  | null => simp at h
                  | bool b => exact Or.inr (Or.inl ⟨_, rfl, (Except.ok.inj h).symm⟩)
                  | num n => exact Or.inr (Or.inl ⟨_, rfl, (Except.ok.inj h).symm⟩)
                  | str t => exact Or.inr (Or.inl ⟨_, rfl, (Except.ok.inj h).symm⟩)
                  | arr xs => exact Or.inr (Or.inl ⟨_, rfl, (Except.ok.inj h).symm⟩)
                  | obj fs => exact Or.inr (Or.inl ⟨_, rfl, (Except.ok.inj h).symm⟩)
            · by_cases h3 : s = "execute_result"
              · subst h3
                simp only at h
                unfold parseExecuteResultOutput at h
                cases hd : getProp o "data" with
                | none => rw [hd] at h; simp at h
                | some bundle =>
                    rw [hd] at h
                    cases bundle with
                    | null => simp at h
                    | bool b => exact Or.inr (Or.inr (Or.inl ⟨_, rfl, (Except.ok.inj h).symm⟩))
                    | num n => exact Or.inr (Or.inr (Or.inl ⟨_, rfl, (Except.ok.inj h).symm⟩))
                    | str t => exact Or.inr (Or.inr (Or.inl ⟨_, rfl, (Except.ok.inj h).symm⟩))
                    | arr xs => exact Or.inr (Or.inr (Or.inl ⟨_, rfl, (Except.ok.inj h).symm⟩))
                    | obj fs => exact Or.inr (Or.inr (Or.inl ⟨_, rfl, (Except.ok.inj h).symm⟩))
              · by_cases h4 : s = "error"
                · subst h4
                  simp only at h
                  unfold parseErrorOutput at h
                  cases ht : getProp o "traceback" with
                  | none => rw [ht] at h; simp at h
                  | some w =>
                      rw [ht] at h
                      cases w with
                      | arr lines =>
                          exact Or.inr (Or.inr (Or.inr ⟨lines, rfl, (Except.ok.inj h).symm⟩))
                      | null => simp at h
                      | bool b => simp at h
                      | num n => simp at h
                      | str t => simp at h
                      | obj fs => simp at h
                · simp [h1, h2, h3, h4] at h
      | null => simp at h
      | bool b => simp at h
      | num n => simp at h
      | arr xs => simp at h
      | obj fs => simp at h

/-- C3 counterexample: a display output whose `text/plain` entry is the
number 42 gets primary text `"42"` (the parser's `String(textPlain)`
branch), while `GetPrimaryText` on the stored bundle falls back to the
JSON rendering — the two diverge at construction. -/
theorem C3_counterexample :
    parseDisplayDataOutput
        (.obj [("output_type", .str "display_data"),
               ("data", .obj [("text/plain", .num 42)])])
      = .ok (.displayDataOutput "42" ⟨.obj [("text/plain", .num 42)], none⟩)
    ∧ getPrimaryText (.obj [("text/plain", .num 42)]) ≠ "42" :=
  ⟨rfl, by decide⟩

/-- C3 (amended): every display/execute output produced by the parser
carries a primary text equal to the parser's inline computation on the
stored bundle; it equals `GetPrimaryText` of that bundle whenever the
bundle's `text/plain` entry is absent, a string, or an array of lines —
when the entry is present with any other shape, the value is the JS
string coercion of that entry instead. -/
theorem C3_primary_text_invariant (o : JsonValue) (i : Nat) (po : Output)
    (h : parseOutput o i = .ok po) :
    (∀ v d, po = .displayDataOutput v d →
        v = primaryTextInline d.mimeBundle
        ∧ (primaryTextAgrees d.mimeBundle = true → v = getPrimaryText d.mimeBundle)
        ∧ (primaryTextAgrees d.mimeBundle = false →
            ∃ tp, getProp d.mimeBundle "text/plain" = some tp ∧ v = jsToString tp))
    ∧ (∀ v d, po = .executeResultOutput v d →
        v = primaryTextInline d.mimeBundle
        ∧ (primaryTextAgrees d.mimeBundle = true → v = getPrimaryText d.mimeBundle)
        ∧ (primaryTextAgrees d.mimeBundle = false →
            ∃ tp, getProp d.mimeBundle "text/plain" = some tp ∧ v = jsToString tp)) := by
  have hdisagree : ∀ bundle : JsonValue, primaryTextAgrees bundle = false →
      ∃ tp, getProp bundle "text/plain" = some tp
        ∧ primaryTextInline bundle = jsToString tp := by
    intro bundle hb
    unfold primaryTextAgrees at hb
    unfold primaryTextInline
    cases hg : getProp bundle "text/plain" with
    | none => rw [hg] at hb; simp at hb
    | some v =>
        rw [hg] at hb
        cases v with
        | str s => simp at hb
        | arr xs => simp at hb
        | null => exact ⟨_, rfl, rfl⟩
        | bool b => exact ⟨_, rfl, rfl⟩
        | num n => exact ⟨_, rfl, rfl⟩
        | obj fs => exact ⟨_, rfl, rfl⟩
  rcases parseOutput_ok_cases o i po h with
    ⟨text, rfl⟩ | ⟨bundle, hd, rfl⟩ | ⟨bundle, hd, rfl⟩ | ⟨lines, ht, rfl⟩
  · exact ⟨(fun v d hvd => by cases hvd), (fun v d hvd => by cases hvd)⟩
  · refine ⟨fun v d hvd => ?_, (fun v d hvd => by cases hvd)⟩
    cases hvd
    refine ⟨rfl, fun ha => primaryTextInline_eq_getPrimaryText _ ha, fun hb => ?_⟩
    exact hdisagree _ hb
  · refine ⟨(fun v d hvd => by cases hvd), fun v d hvd => ?_⟩
    cases hvd
    refine ⟨rfl, fun ha => primaryTextInline_eq_getPrimaryText _ ha, fun hb => ?_⟩
    exact hdisagree _ hb
  · exact ⟨(fun v d hvd => by cases hvd), (fun v d hvd => by cases hvd)⟩

/-- Witness for C3 at a concrete execute_result output with an
array-of-lines `text/plain`. -/
theorem C3_primary_text_invariant_witness :
    parseOutput c3SampleOutput 0 = .ok c3SampleParsed
    ∧ (∀ v d, c3SampleParsed = .executeResultOutput v d →
        v = primaryTextInline d.mimeBundle
        ∧ (primaryTextAgrees d.mimeBundle = true → v = getPrimaryText d.mimeBundle)
        ∧ (primaryTextAgrees d.mimeBundle = false →
            ∃ tp, getProp d.mimeBundle "text/plain" = some tp ∧ v = jsToString tp)) :=
  ⟨rfl, (C3_primary_text_invariant c3SampleOutput 0 c3SampleParsed rfl).2⟩

/-!
## Claim C9: literal value / data.source coherence
-/

/-- Inversion of `parseCell` for the value/source coherence: in every
markdown or raw cell the parser constructs, the literal `value` is the
very normalized source stored in `data.source`. -/
theorem parseCell_value_source (c : JsonValue) (i : Nat) (pc : Cell)
    (h : parseCell c i = .ok pc) :
    (∀ v d, pc = .markdownCell v d → v = d.source)
    ∧ (∀ v d, pc = .rawCell v d → v = d.source) := by
  unfold parseCell at h
  by_cases hguard : cellIdInvalid (getProp c "id") = true
  · rw [if_pos hguard] at h
    simp at h
  · rw [if_neg hguard] at h
    cases hg : getProp c "cell_type" with
    | none => rw [hg] at h; simp [dispatchCellType] at h
    | some v =>
        rw [hg] at h
        cases v with
        | str t =>
            by_cases t1 : t = "code"
            · subst t1
              simp only [dispatchCellType] at h
              unfold parseCodeCell at h
              cases hs : normalizeSourceJson (getProp c "source") with
              | error e => rw [hs] at h; simp [ebindError] at h
              | ok s =>
                  rw [hs] at h
                  simp only [ebindOk] at h
                  cases ho : parseOutputsField (getProp c "outputs") with
                  | error e => rw [ho] at h; simp [ebindError] at h
                  | ok outs =>
                      rw [ho] at h
                      simp only [ebindOk] at h
                      obtain rfl := (Except.ok.inj h).symm
                      exact ⟨(fun v d hvd => by cases hvd),
                             (fun v d hvd => by cases hvd)⟩
            · by_cases t2 : t = "markdown"
              · subst t2
                simp only [dispatchCellType] at h
                unfold parseMarkdownCell at h
                cases hs : normalizeSourceJson (getProp c "source") with
                | error e => rw [hs] at h; simp [ebindError] at h
                | ok s =>
                    rw [hs] at h
                    simp only [ebindOk] at h
                    obtain rfl := (Except.ok.inj h).symm
                    refine ⟨fun v d hvd => ?_, (fun v d hvd => by cases hvd)⟩
                    cases hvd
                    rfl
              · by_cases t3 : t = "raw"
                · subst t3
                  simp only [dispatchCellType] at h
                  unfold parseRawCell at h
                  cases hs : normalizeSourceJson (getProp c "source") with
                  | error e => rw [hs] at h; simp [ebindError] at h
                  | ok s =>
                      rw [hs] at h
                      simp only [ebindOk] at h
                      obtain rfl := (Except.ok.inj h).symm
                      refine ⟨(fun v d hvd => by cases hvd), fun v d hvd => ?_⟩
                      cases hvd
                      rfl
                · simp [dispatchCellType, t1, t2, t3] at h
        | null => simp [dispatchCellType] at h
        | bool b => simp [dispatchCellType] at h
        | num n => simp [dispatchCellType] at h
        | arr xs => simp [dispatchCellType] at h
        | obj fs => simp [dispatchCellType] at h

/-- Every cell of a successfully parsed cell list comes from `parseCell`
at some input and index. -/
theorem parseCellList_mem (cs : List JsonValue) (k : Nat) (pcs : List Cell)
    (h : parseCellList cs k = .ok pcs) :
    ∀ pc ∈ pcs, ∃ c i, parseCell c i = .ok pc := by
  induction cs generalizing k pcs with
  | nil =>
      obtain rfl : pcs = [] := (Except.ok.inj h.symm)
      simp
  | cons c0 rest ih =>
      cases hc0 : parseCell c0 k with
      | error e => simp [parseCellList, hc0, ebindError] at h
      | ok pc0 =>
          cases hrest : parseCellList rest (k + 1) with
          | error e => simp [parseCellList, hc0, hrest, ebindOk, ebindError] at h
          | ok prest =>
              have heq : pcs = pc0 :: prest := by
                have := h
                simp only [parseCellList, hc0, hrest, ebindOk] at this
                exact (Except.ok.inj this).symm
              subst heq
              intro pc hpc
              rcases List.mem_cons.mp hpc with rfl | hpc
              · exact ⟨c0, k, hc0⟩
              · exact ih (k + 1) prest hrest pc hpc

/-- Inversion of `parse`: the children of a parsed root are a
successfully parsed cell list. -/
theorem parse_ok_children (j : JsonValue) (root : NotebookRoot)
    (h : parse j = .ok root) :
    ∃ cs, getProp j "cells" = some (.arr cs) ∧ parseCellList cs 0 = .ok root.children := by
  cases hc : getProp j "cells" with
  | none => simp [parse, hc, requireCells, ebindError] at h
  | some v =>
      cases v with
      | arr cs =>
          cases hn : getProp j "nbformat" with
          | none =>
              simp [parse, hc, hn, requireCells, requireNbformat, ebindOk, ebindError] at h
          | some w =>
              cases w with
              | num n =>
                  cases hl : parseCellList cs 0 with
                  | error e =>
                      simp [parse, hc, hn, hl, requireCells, requireNbformat,
                        ebindOk, ebindError] at h
                  | ok pcs =>
                      refine ⟨cs, rfl, ?_⟩
                      have hroot : root = ⟨"notebook", pcs,
                          some ⟨n, minorDefault (getProp j "nbformat_minor"),
                                getProp j "metadata"⟩⟩ := by
                        have := h
                        simp only [parse, hc, hn, hl, requireCells, requireNbformat,
                          ebindOk] at this
                        exact (Except.ok.inj this).symm
                      rw [hroot, hl]
              | null =>
                  simp [parse, hc, hn, requireCells, requireNbformat, ebindOk, ebindError] at h
              | bool b =>
                  simp [parse, hc, hn, requireCells, requireNbformat, ebindOk, ebindError] at h
              | str t =>
                  simp [parse, hc, hn, requireCells, requireNbformat, ebindOk, ebindError] at h
              | arr xs =>
                  simp [parse, hc, hn, requireCells, requireNbformat, ebindOk, ebindError] at h
              | obj fs =>
                  simp [parse, hc, hn, requireCells, requireNbformat, ebindOk, ebindError] at h
      | null => simp [parse, hc, requireCells, ebindError] at h
      | bool b => simp [parse, hc, requireCells, ebindError] at h
      | num n => simp [parse, hc, requireCells, ebindError] at h
      | str s => simp [parse, hc, requireCells, ebindError] at h
      | obj fs => simp [parse, hc, requireCells, ebindError] at h

/-- C9: in every markdown and raw cell produced by the parser the
literal `value` equals `data.source`, so `getCellSource` — which reads
`value` for markdown/raw cells and `data.source` for code cells —
returns the normalized `data.source` of every cell variant. -/
theorem C9_value_source_coherence (j : JsonValue) (root : NotebookRoot)
    (h : parse j = .ok root) :
    ∀ pc ∈ root.children,
      (∀ v d, pc = .markdownCell v d → v = d.source)
      ∧ (∀ v d, pc = .rawCell v d → v = d.source)
      ∧ getCellSource pc = cellDataSource pc := by
  obtain ⟨cs, _, hl⟩ := parse_ok_children j root h
  intro pc hpc
  obtain ⟨c, i, hci⟩ := parseCellList_mem cs 0 root.children hl pc hpc
  obtain ⟨hmd, hraw⟩ := parseCell_value_source c i pc hci
  refine ⟨hmd, hraw, ?_⟩
  cases pc with
  | codeCell outs d => rfl
  | markdownCell v d => exact hmd v d rfl
  | rawCell v d => exact hraw v d rfl

/-- Witness for C9 at a concrete two-cell notebook. -/
theorem C9_value_source_coherence_witness :
    (∀ v d, (.markdownCell "hi" ⟨"a1", "hi", none⟩ : Cell) = .markdownCell v d →
        v = d.source)
    ∧ (∀ v d, (.markdownCell "hi" ⟨"a1", "hi", none⟩ : Cell) = .rawCell v d →
        v = d.source)
    ∧ getCellSource (.markdownCell "hi" ⟨"a1", "hi", none⟩)
        = cellDataSource (.markdownCell "hi" ⟨"a1", "hi", none⟩) :=
  C9_value_source_coherence
    (.obj [("cells", .arr [.obj [("cell_type", .str "markdown"), ("id", .str "a1"),
        ("source", .str "hi")]]), ("nbformat", .num 4)])
    ⟨"notebook", [.markdownCell "hi" ⟨"a1", "hi", none⟩], some ⟨4, 0, none⟩⟩
    rfl
    (.markdownCell "hi" ⟨"a1", "hi", none⟩)
    (by simp)

/-!
## Claim C1: parse/compile round trip

The round trip is proved bottom-up: each parsed node, compiled with the
default options and re-parsed, comes back unchanged; well-formedness
(`wfNotebook`, the shape of schema-conformant 4.x notebooks with valid
explicit ids) guarantees the initial parse succeeds and every metadata
object survives the `|| \x7b\x7d` defaulting.
-/

/-- Compiling a traceback and re-reading it line by line is the
identity. -/
theorem traceback_roundtrip (children : List TracebackLine) :
    (children.map (fun t => JsonValue.str t.value)).map
      (fun l => (⟨tracebackLineString l⟩ : TracebackLine)) = children := by
  induction children with
  | nil => rfl
  | cons t rest ih =>
      simp only [List.map_cons]
      rw [ih]
      rfl

/-- A parsed stream output survives compile-then-reparse. -/
theorem reparse_stream (t : String) (name : Option JsonValue) (i : Nat) :
    parseOutput (compileOutput {} (.streamOutput t ⟨name⟩)) i
      = .ok (.streamOutput t ⟨name⟩) := by
  cases name with
  | none => rfl
  | some w => rfl

/-- A parsed display-data output with object metadata and a primary text
derived from its bundle survives compile-then-reparse. -/
theorem reparse_display (v : String) (bundle : JsonValue)
    (mfs : List (String × JsonValue)) (i : Nat)
    (hb : bundle ≠ .null) (hv : v = primaryTextInline bundle) :
    parseOutput (compileOutput {} (.displayDataOutput v ⟨bundle, some (.obj mfs)⟩)) i
      = .ok (.displayDataOutput v ⟨bundle, some (.obj mfs)⟩) := by
  subst hv
  cases bundle with
  | null => exact absurd rfl hb
  | bool b => rfl
  | num n => rfl
  | str s => rfl
  | arr xs => rfl
  | obj fs => rfl

/-- A parsed execute-result output with object metadata and a primary
text derived from its bundle survives compile-then-reparse. -/
theorem reparse_execute (v : String) (ec : Option JsonValue) (bundle : JsonValue)
    (mfs : List (String × JsonValue)) (i : Nat)
    (hb : bundle ≠ .null) (hv : v = primaryTextInline bundle) :
    parseOutput (compileOutput {} (.executeResultOutput v ⟨ec, bundle, some (.obj mfs)⟩)) i
      = .ok (.executeResultOutput v ⟨ec, bundle, some (.obj mfs)⟩) := by
  subst hv
  cases ec with
  | none =>
      cases bundle with
      | null => exact absurd rfl hb
      | bool b => rfl
      | num n => rfl
      | str s => rfl
      | arr xs => rfl
      | obj fs => rfl
  | some w =>
      cases bundle with
      | null => exact absurd rfl hb
      | bool b => rfl
      | num n => rfl
      | str s => rfl
      | arr xs => rfl
      | obj fs => rfl

/-- A parsed error output survives compile-then-reparse. -/
theorem reparse_error (children : List TracebackLine)
    (ename evalue : Option JsonValue) (i : Nat) :
    parseOutput (compileOutput {} (.errorOutput children ⟨ename, evalue⟩)) i
      = .ok (.errorOutput children ⟨ename, evalue⟩) := by
  cases ename with
  | none =>
      cases evalue with
      | none =>
          have hx : parseOutput (compileOutput {} (.errorOutput children ⟨none, none⟩)) i
              = .ok (.errorOutput ((children.map (fun t => JsonValue.str t.value)).map
                  (fun l => ⟨tracebackLineString l⟩)) ⟨none, none⟩) := rfl
          rw [traceback_roundtrip] at hx
          exact hx
      | some w2 =>
          have hx : parseOutput (compileOutput {} (.errorOutput children ⟨none, some w2⟩)) i
              = .ok (.errorOutput ((children.map (fun t => JsonValue.str t.value)).map
                  (fun l => ⟨tracebackLineString l⟩)) ⟨none, some w2⟩) := rfl
          rw [traceback_roundtrip] at hx
          exact hx
  | some w1 =>
      cases evalue with
      | none =>
          have hx : parseOutput (compileOutput {} (.errorOutput children ⟨some w1, none⟩)) i
              = .ok (.errorOutput ((children.map (fun t => JsonValue.str t.value)).map
                  (fun l => ⟨tracebackLineString l⟩)) ⟨some w1, none⟩) := rfl
          rw [traceback_roundtrip] at hx
          exact hx
      | some w2 =>
          have hx : parseOutput (compileOutput {}
                (.errorOutput children ⟨some w1, some w2⟩)) i
              = .ok (.errorOutput ((children.map (fun t => JsonValue.str t.value)).map
                  (fun l => ⟨tracebackLineString l⟩)) ⟨some w1, some w2⟩) := rfl
          rw [traceback_roundtrip] at hx
          exact hx

/-- A well-formed output parses, and the parsed node survives
compile-then-reparse. -/
theorem outputRoundTrip (o : JsonValue) (i : Nat) (h : wfOutput o = true) :
    ∃ po, parseOutput o i = .ok po
      ∧ ∀ i2, parseOutput (compileOutput {} po) i2 = .ok po := by
  unfold wfOutput at h
  cases hg : getProp o "output_type" with
  | none => rw [hg] at h; simp at h
  | some v =>
      rw [hg] at h
      cases v with
      | str s =>
          by_cases h1 : s = "stream"
          · subst h1
            simp only at h
            obtain ⟨t, ht⟩ := normalizeSourceJson_ok_of_shape _ h
            refine ⟨.streamOutput t ⟨getProp o "name"⟩, ?_, fun i2 => reparse_stream ..⟩
            simp [parseOutput, hg, parseStreamOutput, ht, ebindOk]
          · by_cases h2 : s = "display_data"
            · subst h2
              simp only at h
              rw [Bool.and_eq_true] at h
              obtain ⟨hdat, hmet⟩ := h
              obtain ⟨mfs, hmfs⟩ : ∃ mfs, getProp o "metadata" = some (.obj mfs) := by
                cases hm : getProp o "metadata" with
                | none => rw [hm] at hmet; simp at hmet
                | some w =>
                    rw [hm] at hmet
                    cases w with
                    | obj mfs => exact ⟨mfs, rfl⟩
                    | null => simp at hmet
                    | bool b => simp at hmet
                    | num n => simp at hmet
                    | str t => simp at hmet
                    | arr xs => simp at hmet
              cases hd : getProp o "data" with
              | none => rw [hd] at hdat; simp at hdat
              | some bundle =>
                  rw [hd] at hdat
                  have hbn : bundle ≠ .null := by
                    intro hb; subst hb; simp at hdat
                  refine ⟨.displayDataOutput (primaryTextInline bundle)
                      ⟨bundle, some (.obj mfs)⟩, ?_,
                    fun i2 => reparse_display _ bundle mfs i2 hbn rfl⟩
                  cases bundle with
                  | null => exact absurd rfl hbn
                  | bool b => simp [parseOutput, hg, parseDisplayDataOutput, hd, hmfs]
                  | num n => simp [parseOutput, hg, parseDisplayDataOutput, hd, hmfs]
                  | str t => simp [parseOutput, hg, parseDisplayDataOutput, hd, hmfs]
                  | arr xs => simp [parseOutput, hg, parseDisplayDataOutput, hd, hmfs]
                  | obj fs2 => simp [parseOutput, hg, parseDisplayDataOutput, hd, hmfs]
            · by_cases h3 : s = "execute_result"
              · subst h3
                simp only at h
                rw [Bool.and_eq_true] at h
                obtain ⟨hdat, hmet⟩ := h
                obtain ⟨mfs, hmfs⟩ : ∃ mfs, getProp o "metadata" = some (.obj mfs) := by
                  cases hm : getProp o "metadata" with
                  | none => rw [hm] at hmet; simp at hmet
                  | some w =>
                      rw [hm] at hmet
                      cases w with
                      | obj mfs => exact ⟨mfs, rfl⟩
                      | null => simp at hmet
                      | bool b => simp at hmet
                      | num n => simp at hmet
                      | str t => simp at hmet
                      | arr xs => simp at hmet
                cases hd : getProp o "data" with
                | none => rw [hd] at hdat; simp at hdat
                | some bundle =>
                    rw [hd] at hdat
                    have hbn : bundle ≠ .null := by
                      intro hb; subst hb; simp at hdat
                    refine ⟨.executeResultOutput (primaryTextInline bundle)
                        ⟨getProp o "execution_count", bundle, some (.obj mfs)⟩, ?_,
                      fun i2 => reparse_execute _ _ bundle mfs i2 hbn rfl⟩
                    cases bundle with
                    | null => exact absurd rfl hbn
                    | bool b => simp [parseOutput, hg, parseExecuteResultOutput, hd, hmfs]
                    | num n => simp [parseOutput, hg, parseExecuteResultOutput, hd, hmfs]
                    | str t => simp [parseOutput, hg, parseExecuteResultOutput, hd, hmfs]
                    | arr xs => simp [parseOutput, hg, parseExecuteResultOutput, hd, hmfs]
                    | obj fs2 => simp [parseOutput, hg, parseExecuteResultOutput, hd, hmfs]
              · by_cases h4 : s = "error"
                · subst h4
                  simp only at h
                  cases ht : getProp o "traceback" with
                  | none => rw [ht] at h; simp at h
                  | some w =>
                      rw [ht] at h
                      cases w with
                      | arr lines =>
                          refine ⟨.errorOutput (lines.map fun l => ⟨tracebackLineString l⟩)
                              ⟨getProp o "ename", getProp o "evalue"⟩, ?_,
                            fun i2 => reparse_error ..⟩
                          simp [parseOutput, hg, parseErrorOutput, ht]
                      | null => simp at h
                      | bool b => simp at h
                      | num n => simp at h
                      | str t => simp at h
                      | obj fs => simp at h
                · simp [h1, h2, h3, h4] at h
      | null => simp at h
      | bool b => simp at h
      | num n => simp at h
      | arr xs => simp at h
      | obj fs => simp at h

/-- A list of well-formed outputs parses at any index, and the parsed
list survives compile-then-reparse. -/
theorem outputListRoundTrip (os : List JsonValue) (h : os.all wfOutput = true) :
    ∀ i, ∃ pos, parseOutputList os i = .ok pos
      ∧ ∀ i2, parseOutputList (pos.map (compileOutput {})) i2 = .ok pos := by
  induction os with
  | nil => exact fun i => ⟨[], rfl, fun i2 => rfl⟩
  | cons o rest ih =>
      intro i
      simp only [List.all_cons, Bool.and_eq_true] at h
      obtain ⟨po, hpo, hre⟩ := outputRoundTrip o i h.1
      obtain ⟨pos, hpos, hres⟩ := ih h.2 (i + 1)
      refine ⟨po :: pos, ?_, fun i2 => ?_⟩
      · simp [parseOutputList, hpo, hpos, ebindOk]
      · simp [parseOutputList, hre i2, hres (i2 + 1), ebindOk]

/-- Writing back a value a key already holds leaves the object
unchanged. -/
theorem setField_self (fs : List (String × JsonValue)) (key : String) (v : JsonValue)
    (h : lookupField fs key = some v) : setField fs key v = fs := by
  induction fs with
  | nil => simp [lookupField] at h
  | cons kv rest ih =>
      obtain ⟨k0, v0⟩ := kv
      by_cases hk : k0 = key
      · subst hk
        have h2 : v0 = v := by simpa [lookupField] using h
        subst h2
        simp [setField]
      · simp only [lookupField, if_neg hk] at h
        simp [setField, hk, ih h]

/-- Rebuilding a raw cell's metadata from the format the parser itself
extracted is the identity on the original metadata object. -/
theorem rawCellMetadata_id (mfs : List (String × JsonValue)) (s src : String) :
    rawCellMetadata ⟨s, src, rawFormat (some (.obj mfs)), some (.obj mfs)⟩ = .obj mfs := by
  unfold rawCellMetadata rawFormat
  simp only [getProp]
  cases hf : lookupField mfs "format" with
  | none => rfl
  | some w =>
      cases w with
      | str f =>
          by_cases hfe : f = ""
          · subst hfe
            simp
          · simp only
            rw [if_pos (by simpa using hfe)]
            rw [setField_self mfs "format" (.str f) hf]
      | null => rfl
      | bool b => rfl
      | num n => rfl
      | arr xs => rfl
      | obj fs2 => rfl

/-- A parsed code cell with a valid id and object metadata survives
compile-then-reparse, given its outputs do. -/
theorem reparse_codeCell (s : String) (ec : JsonValue) (src : String)
    (mfs : List (String × JsonValue)) (outs : List Output)
    (hvalid : isValidCellId s = true)
    (houts : ∀ i2, parseOutputList (outs.map (compileOutput {})) i2 = .ok outs)
    (i2 : Nat) :
    parseCell (compileCell {} (.codeCell outs ⟨s, ec, src, some (.obj mfs)⟩)) i2
      = .ok (.codeCell outs ⟨s, ec, src, some (.obj mfs)⟩) := by
  have hinv : cellIdInvalid (some (.str s)) = false := by
    simp [cellIdInvalid, hvalid]
  have gid : getProp (compileCell {} (.codeCell outs ⟨s, ec, src, some (.obj mfs)⟩)) "id"
      = some (.str s) := rfl
  have gct : getProp (compileCell {} (.codeCell outs ⟨s, ec, src, some (.obj mfs)⟩))
      "cell_type" = some (.str "code") := rfl
  have gsrc : getProp (compileCell {} (.codeCell outs ⟨s, ec, src, some (.obj mfs)⟩))
      "source" = some (.str src) := rfl
  have gouts : getProp (compileCell {} (.codeCell outs ⟨s, ec, src, some (.obj mfs)⟩))
      "outputs" = some (.arr (outs.map (compileOutput {}))) := rfl
  have gec : getProp (compileCell {} (.codeCell outs ⟨s, ec, src, some (.obj mfs)⟩))
      "execution_count" = some ec := rfl
  have gmeta : getProp (compileCell {} (.codeCell outs ⟨s, ec, src, some (.obj mfs)⟩))
      "metadata" = some (.obj mfs) := rfl
  simp [parseCell, gid, hinv, cellIdString, gct, dispatchCellType, parseCodeCell,
    gsrc, normalizeSourceJson, gouts, parseOutputsField, houts 0, gec, gmeta, ebindOk]

/-- A parsed markdown cell with a valid id and object metadata survives
compile-then-reparse. -/
theorem reparse_markdownCell (s src : String) (mfs : List (String × JsonValue))
    (hvalid : isValidCellId s = true) (i2 : Nat) :
    parseCell (compileCell {} (.markdownCell src ⟨s, src, some (.obj mfs)⟩)) i2
      = .ok (.markdownCell src ⟨s, src, some (.obj mfs)⟩) := by
  have hinv : cellIdInvalid (some (.str s)) = false := by
    simp [cellIdInvalid, hvalid]
  have gid : getProp (compileCell {} (.markdownCell src ⟨s, src, some (.obj mfs)⟩)) "id"
      = some (.str s) := rfl
  have gct : getProp (compileCell {} (.markdownCell src ⟨s, src, some (.obj mfs)⟩))
      "cell_type" = some (.str "markdown") := rfl
  have gsrc : getProp (compileCell {} (.markdownCell src ⟨s, src, some (.obj mfs)⟩))
      "source" = some (.str src) := rfl
  have gmeta : getProp (compileCell {} (.markdownCell src ⟨s, src, some (.obj mfs)⟩))
      "metadata" = some (.obj mfs) := rfl
  simp [parseCell, gid, hinv, cellIdString, gct, dispatchCellType, parseMarkdownCell,
    gsrc, normalizeSourceJson, gmeta, ebindOk]

/-- A parsed raw cell with a valid id, object metadata, and the format
the parser itself extracted survives compile-then-reparse. -/
theorem reparse_rawCell (s src : String) (mfs : List (String × JsonValue))
    (hvalid : isValidCellId s = true) (i2 : Nat) :
    parseCell (compileCell {}
        (.rawCell src ⟨s, src, rawFormat (some (.obj mfs)), some (.obj mfs)⟩)) i2
      = .ok (.rawCell src ⟨s, src, rawFormat (some (.obj mfs)), some (.obj mfs)⟩) := by
  have hinv : cellIdInvalid (some (.str s)) = false := by
    simp [cellIdInvalid, hvalid]
  have hcomp : compileCell {}
      (.rawCell src ⟨s, src, rawFormat (some (.obj mfs)), some (.obj mfs)⟩)
      = .obj [("cell_type", .str "raw"), ("id", .str s), ("source", .str src),
              ("metadata", .obj mfs)] := by
    show compileRawCell {} _ = _
    unfold compileRawCell
    rw [rawCellMetadata_id]
    rfl
  rw [hcomp]
  have gid : getProp (.obj [("cell_type", .str "raw"), ("id", .str s),
      ("source", .str src), ("metadata", .obj mfs)]) "id" = some (.str s) := rfl
  have gct : getProp (.obj [("cell_type", .str "raw"), ("id", .str s),
      ("source", .str src), ("metadata", .obj mfs)]) "cell_type"
      = some (.str "raw") := rfl
  have gsrc : getProp (.obj [("cell_type", .str "raw"), ("id", .str s),
      ("source", .str src), ("metadata", .obj mfs)]) "source" = some (.str src) := rfl
  have gmeta : getProp (.obj [("cell_type", .str "raw"), ("id", .str s),
      ("source", .str src), ("metadata", .obj mfs)]) "metadata"
      = some (.obj mfs) := rfl
  simp [parseCell, gid, hinv, cellIdString, gct, dispatchCellType, parseRawCell,
    gsrc, normalizeSourceJson, gmeta, ebindOk]

/-- A well-formed cell parses at any index, and the parsed cell
survives compile-then-reparse. -/
theorem cellRoundTrip (c : JsonValue) (i : Nat) (h : wfCell c = true) :
    ∃ pc, parseCell c i = .ok pc
      ∧ ∀ i2, parseCell (compileCell {} pc) i2 = .ok pc := by
  unfold wfCell at h
  simp only [Bool.and_eq_true] at h
  obtain ⟨⟨⟨hid, hmeta⟩, hsrc⟩, hct⟩ := h
  obtain ⟨s, hgid, hvalid⟩ : ∃ s, getProp c "id" = some (.str s)
      ∧ isValidCellId s = true := by
    cases hg : getProp c "id" with
    | none => rw [hg] at hid; simp at hid
    | some w =>
        rw [hg] at hid
        cases w with
        | str s => exact ⟨s, rfl, hid⟩
        | null => simp at hid
        | bool b => simp at hid
        | num n => simp at hid
        | arr xs => simp at hid
        | obj fs => simp at hid
  obtain ⟨mfs, hgmeta⟩ : ∃ mfs, getProp c "metadata" = some (.obj mfs) := by
    cases hg : getProp c "metadata" with
    | none => rw [hg] at hmeta; simp at hmeta
    | some w =>
        rw [hg] at hmeta
        cases w with
        | obj mfs => exact ⟨mfs, rfl⟩
        | null => simp at hmeta
        | bool b => simp at hmeta
        | num n => simp at hmeta
        | str t => simp at hmeta
        | arr xs => simp at hmeta
  obtain ⟨src, hsok⟩ := normalizeSourceJson_ok_of_shape _ hsrc
  have hinv : cellIdInvalid (some (.str s)) = false := by
    simp [cellIdInvalid, hvalid]
  cases hg : getProp c "cell_type" with
  | none => rw [hg] at hct; simp at hct
  | some v =>
      rw [hg] at hct
      cases v with
      | str t =>
          by_cases t1 : t = "code"
          · subst t1
            simp only at hct
            obtain ⟨pos, hpos, hres⟩ :
                ∃ pos, parseOutputsField (getProp c "outputs") = .ok pos
                  ∧ ∀ i2, parseOutputList (pos.map (compileOutput {})) i2 = .ok pos := by
              cases ho : getProp c "outputs" with
              | none => exact ⟨[], rfl, fun i2 => rfl⟩
              | some w =>
                  rw [ho] at hct
                  cases w with
                  | arr os =>
                      obtain ⟨pos, hpos, hres⟩ :=
                        outputListRoundTrip os (by simpa using hct) 0
                      exact ⟨pos, by simpa [parseOutputsField] using hpos, hres⟩
                  | null => simp at hct
                  | bool b => simp at hct
                  | num n => simp at hct
                  | str u => simp at hct
                  | obj fs => simp at hct
            refine ⟨.codeCell pos ⟨s, (getProp c "execution_count").getD .null, src,
                some (.obj mfs)⟩, ?_,
              fun i2 => reparse_codeCell s _ src mfs pos hvalid hres i2⟩
            simp [parseCell, hgid, hinv, cellIdString, hg, dispatchCellType,
              parseCodeCell, hsok, hpos, hgmeta, ebindOk]
          · by_cases t2 : t = "markdown"
            · subst t2
              refine ⟨.markdownCell src ⟨s, src, some (.obj mfs)⟩, ?_,
                fun i2 => reparse_markdownCell s src mfs hvalid i2⟩
              simp [parseCell, hgid, hinv, cellIdString, hg, dispatchCellType,
                parseMarkdownCell, hsok, hgmeta, ebindOk]
            · by_cases t3 : t = "raw"
              · subst t3
                refine ⟨.rawCell src ⟨s, src, rawFormat (some (.obj mfs)),
                    some (.obj mfs)⟩, ?_,
                  fun i2 => reparse_rawCell s src mfs hvalid i2⟩
                simp [parseCell, hgid, hinv, cellIdString, hg, dispatchCellType,
                  parseRawCell, hsok, hgmeta, ebindOk]
              · simp [t1, t2, t3] at hct
      | null => simp at hct
      | bool b => simp at hct
      | num n => simp at hct
      | arr xs => simp at hct
      | obj fs => simp at hct

/-- A list of well-formed cells parses at any index, and the parsed
list survives compile-then-reparse. -/
theorem cellListRoundTrip (cs : List JsonValue) (h : cs.all wfCell = true) :
    ∀ k, ∃ pcs, parseCellList cs k = .ok pcs
      ∧ ∀ k2, parseCellList (pcs.map (compileCell {})) k2 = .ok pcs := by
  induction cs with
  | nil => exact fun k => ⟨[], rfl, fun k2 => rfl⟩
  | cons c rest ih =>
      intro k
      simp only [List.all_cons, Bool.and_eq_true] at h
      obtain ⟨pc, hpc, hre⟩ := cellRoundTrip c k h.1
      obtain ⟨pcs, hpcs, hres⟩ := ih h.2 (k + 1)
      refine ⟨pc :: pcs, ?_, fun k2 => ?_⟩
      · simp [parseCellList, hpc, hpcs, ebindOk]
      · simp [parseCellList, hre k2, hres (k2 + 1), ebindOk]

/-- A compiled notebook object re-parses to the original root, given
its compiled cells do. -/
theorem reparse_notebook (pcs : List Cell) (m0 : Int) (fs : List (String × JsonValue))
    (hres : parseCellList (pcs.map (compileCell {})) 0 = .ok pcs) :
    parse (.obj [("nbformat", .num 4), ("nbformat_minor", .num m0),
                 ("metadata", .obj fs), ("cells", .arr (pcs.map (compileCell {})))])
      = .ok ⟨"notebook", pcs, some ⟨4, m0, some (.obj fs)⟩⟩ := by
  have g1 : getProp (.obj [("nbformat", .num 4), ("nbformat_minor", .num m0),
      ("metadata", .obj fs), ("cells", .arr (pcs.map (compileCell {})))]) "cells"
      = some (.arr (pcs.map (compileCell {}))) := rfl
  have g2 : getProp (.obj [("nbformat", .num 4), ("nbformat_minor", .num m0),
      ("metadata", .obj fs), ("cells", .arr (pcs.map (compileCell {})))]) "nbformat"
      = some (.num 4) := rfl
  have g3 : getProp (.obj [("nbformat", .num 4), ("nbformat_minor", .num m0),
      ("metadata", .obj fs), ("cells", .arr (pcs.map (compileCell {})))]) "nbformat_minor"
      = some (.num m0) := rfl
  have g4 : getProp (.obj [("nbformat", .num 4), ("nbformat_minor", .num m0),
      ("metadata", .obj fs), ("cells", .arr (pcs.map (compileCell {})))]) "metadata"
      = some (.obj fs) := rfl
  simp [parse, g1, requireCells, g2, requireNbformat, hres, g3, g4,
    minorDefault, ebindOk]

/-- C1: every well-formed 4.x notebook whose cells all carry valid
explicit identifiers parses; compiling the parsed tree with the default
options (`multilineSource = false`) and re-parsing the emitted JSON
yields a `NotebookRoot` equal to the original parse result — in
particular the cell count, order, types, ids, per-cell outputs and all
metadata coincide. -/
theorem C1_parse_compile_roundtrip (j : JsonValue) (h : wfNotebook j = true) :
    ∃ root out, parse j = .ok root ∧ compile {} root = .ok out ∧ parse out = .ok root := by
  unfold wfNotebook at h
  simp only [Bool.and_eq_true] at h
  obtain ⟨⟨⟨hcells, hnb⟩, hminor⟩, hmeta⟩ := h
  obtain ⟨cs, hgcells, hall⟩ : ∃ cs, getProp j "cells" = some (.arr cs)
      ∧ cs.all wfCell = true := by
    cases hg : getProp j "cells" with
    | none => rw [hg] at hcells; simp at hcells
    | some w =>
        rw [hg] at hcells
        cases w with
        | arr cs => exact ⟨cs, rfl, hcells⟩
        | null => simp at hcells
        | bool b => simp at hcells
        | num n => simp at hcells
        | str t => simp at hcells
        | obj fs => simp at hcells
  obtain ⟨hgnb⟩ : ∃ _ : getProp j "nbformat" = some (.num 4), True := by
    cases hg : getProp j "nbformat" with
    | none => rw [hg] at hnb; simp at hnb
    | some w =>
        rw [hg] at hnb
        cases w with
        | num n =>
            obtain rfl : n = 4 := by simpa using hnb
            exact ⟨rfl, trivial⟩
        | null => simp at hnb
        | bool b => simp at hnb
        | str t => simp at hnb
        | arr xs => simp at hnb
        | obj fs => simp at hnb
  obtain ⟨fs, hgmeta⟩ : ∃ fs, getProp j "metadata" = some (.obj fs) := by
    cases hg : getProp j "metadata" with
    | none => rw [hg] at hmeta; simp at hmeta
    | some w =>
        rw [hg] at hmeta
        cases w with
        | obj fs => exact ⟨fs, rfl⟩
        | null => simp at hmeta
        | bool b => simp at hmeta
        | num n => simp at hmeta
        | str t => simp at hmeta
        | arr xs => simp at hmeta
  have hminval : 0 ≤ minorDefault (getProp j "nbformat_minor") := by
    cases hg : getProp j "nbformat_minor" with
    | none => simp [minorDefault]
    | some w =>
        rw [hg] at hminor
        cases w with
        | num m => simpa [minorDefault] using hminor
        | null => simp at hminor
        | bool b => simp at hminor
        | str t => simp at hminor
        | arr xs => simp at hminor
        | obj fs2 => simp at hminor
  obtain ⟨pcs, hpcs, hres⟩ := cellListRoundTrip cs hall 0
  refine ⟨⟨"notebook", pcs,
      some ⟨4, minorDefault (getProp j "nbformat_minor"), some (.obj fs)⟩⟩,
    .obj [("nbformat", .num 4),
          ("nbformat_minor", .num (minorDefault (getProp j "nbformat_minor"))),
          ("metadata", .obj fs),
          ("cells", .arr (pcs.map (compileCell {})))], ?_, ?_, ?_⟩
  · simp [parse, hgcells, requireCells, hgnb, requireNbformat, hpcs, hgmeta, ebindOk]
  · have hver : isValidNbformatVersion 4 (minorDefault (getProp j "nbformat_minor"))
        = true := by
      simp [isValidNbformatVersion, hminval]
    simp [compile, hver, jsOrEmptyObj, jsTruthy]
  · exact reparse_notebook pcs (minorDefault (getProp j "nbformat_minor")) fs (hres 0)

/-- Witness for C1 at `c1Sample`. -/
theorem C1_parse_compile_roundtrip_witness :
    wfNotebook c1Sample = true
    ∧ ∃ root out, parse c1Sample = .ok root ∧ compile {} root = .ok out
        ∧ parse out = .ok root :=
  ⟨rfl, C1_parse_compile_roundtrip c1Sample rfl⟩
